import Mathlib

/-!
# node-redmine: the request/response pipeline of `lib/redmine.js`

A shallow embedding of `src/lib/redmine.js`.

* A JavaScript string is a sequence of UTF-16 code units (`JSString`); a Lean
  string stands for the JavaScript string of its UTF-16 encoding.
* A JavaScript number is an IEEE-754 double, carried exactly as
  `(-1)^neg * m * 2^e`; decimal literals round to the nearest double and
  numbers print as their shortest decimal that reads back as the same double.
* A JavaScript value is the inductive type `JSValue`; an object is the list of
  its own data properties.
* A function that can throw returns `Except Thrown _`.
* The runtime builtins the source calls (`typeof`, truthiness, `JSON.stringify`,
  `JSON.parse`, `querystring.stringify`, `http.request`) are modelled from
  ECMAScript and from the Node.js library sources; the code of the repository
  is modelled from `src/lib/redmine.js`.
* The asynchronous part of `request` (the `response`, `data`, `end` and `error`
  listeners) is a step function on `RequestState`, with the invocations of the
  caller's callback recorded in the state.
-/

namespace NodeRedmine

/-! ## JavaScript strings -/

/-- A JavaScript string: its UTF-16 code units. -/
structure JSString where
  units : List Nat
  deriving DecidableEq, Repr

/-- The UTF-16 code units of a character: one below U+10000, a surrogate pair
from there on. -/
def utf16Units (c : Char) : List Nat :=
  if c.toNat < 65536 then [c.toNat]
  else [55296 + (c.toNat - 65536) / 1024, 56320 + (c.toNat - 65536) % 1024]

/-- The UTF-16 code units of a text. -/
def codeUnits (s : String) : List Nat :=
  s.toList.flatMap utf16Units

/-- The JavaScript string of a text. -/
def JSString.ofString (s : String) : JSString :=
  ⟨codeUnits s⟩

instance : Coe String JSString := ⟨JSString.ofString⟩

instance : Append JSString := ⟨fun a b => ⟨a.units ++ b.units⟩⟩

/-- The `length` property of a text held in a JavaScript string: its number of
UTF-16 code units. -/
def jsLength (s : String) : Nat :=
  (codeUnits s).length

/-- The UTF-8 encoding of a character. -/
def utf8Bytes (c : Char) : List Nat :=
  let n := c.toNat
  if n < 128 then [n]
  else if n < 2048 then [192 + n / 64, 128 + n % 64]
  else if n < 65536 then [224 + n / 4096, 128 + n / 64 % 64, 128 + n % 64]
  else [240 + n / 262144, 128 + n / 4096 % 64, 128 + n / 64 % 64, 128 + n % 64]

/-- The bytes `req.write(body)` puts on the wire: the UTF-8 encoding of the
text (the default encoding of `write`). -/
def wireBytes (s : String) : List Nat :=
  s.toList.flatMap utf8Bytes

/-! ## JavaScript numbers -/

/-- A JavaScript number: `finite neg m e` is the double `(-1)^neg * m * 2^e`,
with `m` odd, or `m = 0` and `e = 0` for the two zeros. -/
inductive JSNumber where
  | nan
  | infinity (neg : Bool)
  | finite (neg : Bool) (m : Nat) (e : Int)
  deriving DecidableEq, Repr

/-- The number of binary digits of `n`. -/
def bitLength : Nat → Nat → Nat
  | 0, _ => 0
  | fuel + 1, n => if n = 0 then 0 else bitLength fuel (n / 2) + 1

/-- Move the factors two of `m` into the exponent. -/
def stripTwos : Nat → Nat → Int → Nat × Int
  | 0, m, e => (m, e)
  | fuel + 1, m, e =>
    if m ≠ 0 ∧ m % 2 = 0 then stripTwos fuel (m / 2) (e + 1) else (m, e)

/-- The number `(-1)^neg * m * 2^e` in its canonical form. -/
def JSNumber.canonical (neg : Bool) (m : Nat) (e : Int) : JSNumber :=
  if m = 0 then .finite neg 0 0
  else .finite neg (stripTwos m m e).1 (stripTwos m m e).2

/-- Quotient, remainder and divisor of `N / (D * 2^b)`. -/
def divPow2 (N D : Nat) (b : Int) : Nat × Nat × Nat :=
  if 0 ≤ b then (N / (D * 2 ^ b.toNat), N % (D * 2 ^ b.toNat), D * 2 ^ b.toNat)
  else (N * 2 ^ (-b).toNat / D, N * 2 ^ (-b).toNat % D, D)

/-- Quotient, remainder and divisor of `N / (D * 10^x)`. -/
def divPow10 (N D : Nat) (x : Int) : Nat × Nat × Nat :=
  if 0 ≤ x then (N / (D * 10 ^ x.toNat), N % (D * 10 ^ x.toNat), D * 10 ^ x.toNat)
  else (N * 10 ^ (-x).toNat / D, N * 10 ^ (-x).toNat % D, D)

/-- Round a quotient with remainder `r` of a division by `d` to the nearest
integer, a tie going to the even one. -/
def roundHalfEven (q r d : Nat) : Nat :=
  if 2 * r < d then q
  else if d < 2 * r then q + 1
  else if q % 2 = 0 then q else q + 1

/-- The double nearest to `(-1)^neg * N / D` (round to nearest, ties to even):
53 binary digits, exponent at least -1074, infinity from `2^1024` on. -/
def JSNumber.ofRatio (neg : Bool) (N D : Nat) : JSNumber :=
  if N = 0 then .finite neg 0 0
  else
    let t : Int := Int.ofNat (bitLength N N) - Int.ofNat (bitLength D D)
    let b0 : Int := if (divPow2 N D (t - 53)).1 < 2 ^ 53 then t - 53 else t - 52
    let b : Int := if b0 < -1074 then -1074 else b0
    let qrd := divPow2 N D b
    let m := roundHalfEven qrd.1 qrd.2.1 qrd.2.2
    if 971 < b ∨ (b = 971 ∧ 2 ^ 53 ≤ m) then .infinity neg
    else JSNumber.canonical neg m b

/-- The number of decimal digits of `n`. -/
def decimalLength (n : Nat) : Nat :=
  (Nat.repr n).length

/-- The double a decimal literal `(-1)^neg * s * 10^x` denotes. -/
def JSNumber.ofDecimal (neg : Bool) (s : Nat) (x : Int) : JSNumber :=
  if s = 0 then .finite neg 0 0
  else if 400 < x + Int.ofNat (decimalLength s) then .infinity neg
  else if x + Int.ofNat (decimalLength s) < -400 then .finite neg 0 0
  else if 0 ≤ x then JSNumber.ofRatio neg (s * 10 ^ x.toNat) 1
  else JSNumber.ofRatio neg s (10 ^ (-x).toNat)

/-- The number denoted by an integer. -/
def JSNumber.ofInt (i : Int) : JSNumber :=
  JSNumber.ofRatio (decide (i < 0)) i.natAbs 1

/-- The number denoted by a natural number. -/
def JSNumber.ofNat (n : Nat) : JSNumber :=
  JSNumber.ofInt (Int.ofNat n)

/-- `Number.isInteger`: finite with no fractional part. -/
def JSNumber.isInteger : JSNumber → Bool
  | .finite _ m e => decide (m = 0 ∨ 0 ≤ (stripTwos m m e).2)
  | _ => false

/-- The value `m * 2^e` as a fraction. -/
def fractionOf (m : Nat) (e : Int) : Nat × Nat :=
  if 0 ≤ e then (m * 2 ^ e.toNat, 1) else (m, 2 ^ (-e).toNat)

/-- The `n` with `10^(n-1) ≤ N / D < 10^n`. -/
def decimalExponent (N D : Nat) : Int :=
  let g : Int := Int.ofNat (decimalLength N) - Int.ofNat (decimalLength D)
  if (if 0 ≤ g then decide (N < D * 10 ^ g.toNat) else decide (N * 10 ^ (-g).toNat < D))
  then g else g + 1

/-- The `k`-digit decimal `s * 10^(n-k)` that reads back as the double
`(-1)^neg * N / D`, if there is one: the nearer of the two decimals around the
value, the even one on a tie. -/
def shortestWith (neg : Bool) (target : JSNumber) (N D : Nat) (n : Int) (k : Nat) :
    Option (Nat × Int) :=
  let x : Int := n - Int.ofNat k
  let qrd := divPow10 N D x
  let lo := decide (JSNumber.ofDecimal neg qrd.1 x = target)
  let hi := decide (JSNumber.ofDecimal neg (qrd.1 + 1) x = target)
  if lo && hi then some (roundHalfEven qrd.1 qrd.2.1 qrd.2.2, x)
  else if lo then some (qrd.1, x)
  else if hi then some (qrd.1 + 1, x)
  else none

/-- The digits `s` and exponent `x` of the shortest decimal `s * 10^x` that
reads back as the double `m * 2^e` (for `m` not zero); 17 digits always
suffice for a double. -/
def shortestDecimal (neg : Bool) (m : Nat) (e : Int) : Nat × Int :=
  let nd := fractionOf m e
  let n := decimalExponent nd.1 nd.2
  let target := JSNumber.canonical neg m e
  match (List.range 17).findSome? fun i => shortestWith neg target nd.1 nd.2 n (i + 1) with
  | some r => r
  | none =>
    let qrd := divPow10 nd.1 nd.2 (n - 17)
    (roundHalfEven qrd.1 qrd.2.1 qrd.2.2, n - 17)

/-- Strip the trailing decimal zeros of `s`, moving them into the exponent. -/
def stripZeros : Nat → Nat → Int → Nat × Int
  | 0, s, x => (s, x)
  | fuel + 1, s, x =>
    if s ≠ 0 ∧ s % 10 = 0 then stripZeros fuel (s / 10) (x + 1) else (s, x)

/-- `Number::toString` (radix 10) of ECMAScript on the digits of `s`, their
count `k` and the position `n` of the decimal point. -/
def formatDecimal (s : Nat) (x : Int) : String :=
  let digits := (Nat.repr s).toList
  let k : Int := Int.ofNat digits.length
  let n : Int := k + x
  if k ≤ n ∧ n ≤ 21 then
    String.mk (digits ++ List.replicate (n - k).toNat (Char.ofNat 48))
  else if 0 < n ∧ n ≤ 21 then
    String.mk (digits.take n.toNat ++ [Char.ofNat 46] ++ digits.drop n.toNat)
  else if -6 < n ∧ n ≤ 0 then
    String.mk ([Char.ofNat 48, Char.ofNat 46]
      ++ List.replicate (-n).toNat (Char.ofNat 48) ++ digits)
  else
    let ex := n - 1
    let exSign := if ex < 0 then "-" else "+"
    let mant :=
      if digits.length = 1 then String.mk digits
      else String.mk (digits.take 1 ++ [Char.ofNat 46] ++ digits.drop 1)
    mant ++ "e" ++ exSign ++ Nat.repr ex.natAbs

/-- `Number::toString` (radix 10): the shortest decimal that reads back as the
number, in the layout of ECMAScript. -/
def JSNumber.toStr : JSNumber → String
  | .nan => "NaN"
  | .infinity neg => if neg then "-Infinity" else "Infinity"
  | .finite neg m e =>
    if m = 0 then "0"
    else
      let sx := shortestDecimal neg m e
      let r := stripZeros sx.1 sx.1 sx.2
      (if neg then "-" else "") ++ formatDecimal r.1 r.2

/-! ## JavaScript values -/

/-- A JavaScript value: the primitives, arrays, and plain objects with their own
data properties. -/
inductive JSValue where
  | undefined
  | null
  | boolean (b : Bool)
  | number (n : JSNumber)
  | string (s : JSString)
  | array (elems : List JSValue)
  | object (props : List (JSString × JSValue))
  deriving Repr

instance : Coe JSString JSValue := ⟨JSValue.string⟩

/-- What a `throw` carries: `new Error(msg)` of the source, or an error raised by
the runtime. -/
inductive Thrown where
  | Error (message : String)
  | TypeError (message : String)
  | SyntaxError (message : String)
  | RangeError (message : String)
  | URIError (message : String)
  deriving DecidableEq, Repr

/-- The `typeof` operator. -/
def typeof : JSValue → String
  | .undefined => "undefined"
  | .null => "object"
  | .boolean _ => "boolean"
  | .number _ => "number"
  | .string _ => "string"
  | .array _ => "object"
  | .object _ => "object"

/-- `ToBoolean`: the truthiness of a value, as tested by `if (v)`, `!v`, `||`
and `&&`. -/
def truthy : JSValue → Bool
  | .undefined => false
  | .null => false
  | .boolean b => b
  | .number .nan => false
  | .number (.infinity _) => true
  | .number (.finite _ m _) => decide (m ≠ 0)
  | .string s => decide (s.units ≠ [])
  | .array _ => true
  | .object _ => true

/-- Strict equality `v === 'literal'` against a string literal. -/
def strictEqString (v : JSValue) (lit : String) : Bool :=
  match v with
  | .string s => decide (s = JSString.ofString lit)
  | _ => false

/-! ## Own properties and their order -/

/-- The array index a property key writes, if it writes one: a decimal numeral
without a leading zero, below `2^32 - 1`. -/
def arrayIndex? (key : JSString) : Option Nat :=
  if key.units = [] then none
  else if !key.units.all (fun u => decide (48 ≤ u ∧ u ≤ 57)) then none
  else if key.units.head? = some 48 ∧ 1 < key.units.length then none
  else if key.units.foldl (fun a u => a * 10 + (u - 48)) 0 < 4294967295 then
    some (key.units.foldl (fun a u => a * 10 + (u - 48)) 0)
  else none

/-- A new key comes before an existing one in the order of the own properties
when it is an array index and the existing key is a larger index or no index:
array indices come first, in ascending order, the other keys follow in the order
of their creation. -/
def comesBefore (key existing : JSString) : Bool :=
  match arrayIndex? key, arrayIndex? existing with
  | some i, some j => decide (i < j)
  | some _, none => true
  | none, _ => false

/-- The value of the own property `key` in a property list, `undefined` when it
is absent. -/
def lookupProp : List (JSString × JSValue) → JSString → JSValue
  | [], _ => .undefined
  | (k, v) :: rest, key => if k = key then v else lookupProp rest key

/-- The property list has the own property `key`. -/
def hasProp {α : Type} : List (JSString × α) → JSString → Bool
  | [], _ => false
  | (k, _) :: rest, key => if k = key then true else hasProp rest key

/-- A new value for an existing property, which keeps its place. -/
def updateProp {α : Type} : List (JSString × α) → JSString → α → List (JSString × α)
  | [], _, _ => []
  | (k, v) :: rest, key, val =>
    if k = key then (k, val) :: rest else (k, v) :: updateProp rest key val

/-- A new property, put at its place in the order of the own properties. -/
def insertProp {α : Type} : List (JSString × α) → JSString → α → List (JSString × α)
  | [], key, val => [(key, val)]
  | (k, v) :: rest, key, val =>
    if comesBefore key k then (key, val) :: (k, v) :: rest
    else (k, v) :: insertProp rest key val

/-- Assignment to the property `key` in a property list. -/
def assignProp {α : Type} (ps : List (JSString × α)) (key : JSString) (val : α) :
    List (JSString × α) :=
  if hasProp ps key then updateProp ps key val else insertProp ps key val

/-- The own properties in the order in which `Object.keys`, `JSON.stringify`
and `for-in` go through them: the property list rebuilt by assignments. -/
def ownProps {α : Type} (ps : List (JSString × α)) : List (JSString × α) :=
  ps.foldl (fun acc kv => assignProp acc kv.1 kv.2) []

/-- The value `base.key` without the failure case: the own property of a plain
object, `undefined` for every other base.  This is what `base.key` reads for the
property names this program uses (`apiKey`, `username`, `password`, `format`,
`host`), none of which exists on a primitive or an array. -/
def prop (base : JSValue) (key : String) : JSValue :=
  match base with
  | .object ps => lookupProp ps (JSString.ofString key)
  | _ => .undefined

/-- The member expression `base.key`: a `TypeError` when `base` is `undefined`
or `null`, the property value otherwise. -/
def getProp (base : JSValue) (key : String) : Except Thrown JSValue :=
  match base with
  | .undefined =>
    .error (.TypeError ("Cannot read properties of undefined (reading " ++ key ++ ")"))
  | .null =>
    .error (.TypeError ("Cannot read properties of null (reading " ++ key ++ ")"))
  | b => .ok (prop b key)

/-- The assignment `base.key = val` in non-strict code (the file's
`'use strict()'` is not a directive): a `TypeError` on `undefined` and `null`,
an update of a plain object, and no effect on a primitive.  An array is left as
it is, the model having no named properties on arrays. -/
def setProp (base : JSValue) (key : String) (val : JSValue) : Except Thrown JSValue :=
  match base with
  | .undefined =>
    .error (.TypeError ("Cannot set properties of undefined (setting " ++ key ++ ")"))
  | .null =>
    .error (.TypeError ("Cannot set properties of null (setting " ++ key ++ ")"))
  | .object ps => .ok (.object (assignProp ps (JSString.ofString key) val))
  | b => .ok b

/-! ## The constructor (`redmine.js` lines 28-45) -/

/-- The client object: `this`, with its one field `config`. -/
structure Client where
  config : JSValue
  deriving Repr

/-- The constructor: `function Redmine(host, config)`. -/
def Redmine (host config : JSValue) : Except Thrown Client := do
  if !truthy host then throw (Thrown.Error "Invalidate hostname !")
  if typeof host ≠ "string" then throw (Thrown.Error "hostname should be a String !")
  -- config.apiKey || (config.username && config.password)
  let apiKey ← getProp config "apiKey"
  let auth ←
    if truthy apiKey then pure apiKey
    else do
      let username ← getProp config "username"
      if truthy username then getProp config "password" else pure username
  if !truthy auth then
    throw (Thrown.Error "You should provide an API key or username & password !")
  let format ← getProp config "format"
  if truthy format then
    if !strictEqString format "json" && !strictEqString format "xml" then
      throw (Thrown.Error "Redmine REST API only supports json and xml !")
  -- this.config = config; this.config.host = host;
  let config1 ← setProp config "host" host
  let format1 ← getProp config1 "format"
  let config2 ← if !truthy format1 then setProp config1 "format" (.string "json") else pure config1
  return { config := config2 }

/-! ## Conversion to string -/

/-- `ToString` of a value, as applied by string concatenation `'...' + v`. -/
def toJSString : JSValue → JSString
  | .undefined => JSString.ofString "undefined"
  | .null => JSString.ofString "null"
  | .boolean b => JSString.ofString (if b then "true" else "false")
  | .number n => JSString.ofString n.toStr
  | .string s => s
  | .array xs => joinElems xs
  | .object _ => JSString.ofString "[object Object]"
where
  /-- `Array.prototype.join(',')`: `undefined` and `null` elements print as
  nothing. -/
  joinElems : List JSValue → JSString
    | [] => JSString.ofString ""
    | x :: rest =>
      (match x with
        | .undefined => JSString.ofString ""
        | .null => JSString.ofString ""
        | y => toJSString y)
      ++ (match rest with
        | [] => JSString.ofString ""
        | r => JSString.ofString "," ++ joinElems r)

/-- Loose equality `v == 'literal'` against a string literal that is not
numeric (`'GET'`, `'json'`, `'/'`): a string compares by content, an array or
object by its `ToString`, and every other value is unequal. -/
def looseEqString (v : JSValue) (lit : String) : Bool :=
  match v with
  | .string s => decide (s = JSString.ofString lit)
  | .array xs => decide (toJSString (.array xs) = JSString.ofString lit)
  | .object ps => decide (toJSString (.object ps) = JSString.ofString lit)
  | _ => false

/-! ## `querystring.stringify` (Node.js, `lib/querystring.js`) -/

/-- An uppercase hexadecimal digit. -/
def hexDigitUpper (n : Nat) : Char :=
  if n < 10 then Char.ofNat (48 + n) else Char.ofNat (55 + n)

/-- The entry `hexTable[b]`: `%XX`. -/
def percentByte (b : Nat) : List Char :=
  [Char.ofNat 37, hexDigitUpper (b / 16), hexDigitUpper (b % 16)]

/-- The table `noEscape`: the ASCII code units `querystring.escape` leaves as
they are, letters and digits and `! ' ( ) * - . _ ~`. -/
def unreserved (n : Nat) : Bool :=
  (48 ≤ n && n ≤ 57) || (65 ≤ n && n ≤ 90) || (97 ≤ n && n ≤ 122)
    || n = 33 || n = 39 || n = 40 || n = 41 || n = 42 || n = 45 || n = 46
    || n = 95 || n = 126

/-- The function `encodeStr` behind `querystring.escape`, on the code units of
the string: an ASCII unit is kept or percent-encoded, a unit below U+0800 gives
two bytes, a unit that is no surrogate three; a surrogate is joined with the
unit after it into four bytes, and a `URIError` is thrown when no unit comes
after it. -/
def querystring.encodeStr : List Nat → Except Thrown (List Char)
  | [] => .ok []
  | c :: rest =>
    if c < 128 then
      match querystring.encodeStr rest with
      | .ok out => .ok ((if unreserved c then [Char.ofNat c] else percentByte c) ++ out)
      | .error e => .error e
    else if c < 2048 then
      match querystring.encodeStr rest with
      | .ok out => .ok (percentByte (192 + c / 64) ++ percentByte (128 + c % 64) ++ out)
      | .error e => .error e
    else if c < 55296 ∨ 57344 ≤ c then
      match querystring.encodeStr rest with
      | .ok out =>
        .ok (percentByte (224 + c / 4096) ++ percentByte (128 + c / 64 % 64)
          ++ percentByte (128 + c % 64) ++ out)
      | .error e => .error e
    else
      match rest with
      | [] => .error (Thrown.URIError "URI malformed")
      | c2 :: rest1 =>
        match querystring.encodeStr rest1 with
        | .ok out =>
          .ok (percentByte (240 + (65536 + (c % 1024) * 1024 + c2 % 1024) / 262144)
            ++ percentByte (128 + (65536 + (c % 1024) * 1024 + c2 % 1024) / 4096 % 64)
            ++ percentByte (128 + (65536 + (c % 1024) * 1024 + c2 % 1024) / 64 % 64)
            ++ percentByte (128 + (65536 + (c % 1024) * 1024 + c2 % 1024) % 64) ++ out)
        | .error e => .error e

/-- `querystring.escape(str)` on a string. -/
def querystring.escape (s : JSString) : Except Thrown String :=
  match querystring.encodeStr s.units with
  | .ok out => .ok (String.mk out)
  | .error e => .error e

/-- The test `Math.abs(v) < 1e21` on the double `m * 2^e`. -/
def absLt1e21 (m : Nat) (e : Int) : Bool :=
  decide ((fractionOf m e).1 < 10 ^ 21 * (fractionOf m e).2)

/-- The function `encodeStringified`: a string is escaped, a finite number
prints (escaped from `1e21` on, where its text has a `+`), a boolean prints, and
every other value gives the empty string. -/
def querystring.encodeStringified : JSValue → Except Thrown String
  | .string s => querystring.escape s
  | .number (.finite neg m e) =>
    if absLt1e21 m e then .ok (JSNumber.finite neg m e).toStr
    else querystring.escape (JSString.ofString (JSNumber.finite neg m e).toStr)
  | .boolean b => .ok (if b then "true" else "false")
  | _ => .ok ""

/-- The loop over the elements of an array value: `if (j) fields += sep;
fields += ks; fields += convert(v[j], encode);`. -/
def querystring.addElements (ks : String) :
    List JSValue → Bool → String → Except Thrown String
  | [], _, fields => .ok fields
  | x :: xs, first, fields =>
    match querystring.encodeStringified x with
    | .ok t =>
      querystring.addElements ks xs false ((if first then fields else fields ++ "&") ++ ks ++ t)
    | .error e => .error e

/-- The body of the loop over the keys, for one value `v` of the key whose text
with `=` is `ks`. -/
def querystring.addValue (ks : String) (fields : String) : JSValue → Except Thrown String
  | .array [] => .ok fields
  | .array (x :: xs) =>
    querystring.addElements ks (x :: xs) true (if fields ≠ "" then fields ++ "&" else fields)
  | v =>
    match querystring.encodeStringified v with
    | .ok t => .ok ((if fields ≠ "" then fields ++ "&" else fields) ++ ks ++ t)
    | .error e => .error e

/-- The loop over the keys of `querystring.stringify`. -/
def querystring.addProps : List (JSString × JSValue) → String → Except Thrown String
  | [], fields => .ok fields
  | (k, v) :: rest, fields =>
    match querystring.escape k with
    | .error e => .error e
    | .ok ks =>
      match querystring.addValue (ks ++ "=") fields v with
      | .ok fields1 => querystring.addProps rest fields1
      | .error e => .error e

/-- The own enumerable properties of an array: its indices. -/
def indexedProps : Nat → List JSValue → List (JSString × JSValue)
  | _, [] => []
  | i, x :: xs => (JSString.ofString (Nat.repr i), x) :: indexedProps (i + 1) xs

/-- `querystring.stringify(obj)` with the default separators and the default
`encodeURIComponent`: the fields of the own properties, and the empty string for
a value that is not an object. -/
def querystring.stringify : JSValue → Except Thrown String
  | .object ps => querystring.addProps (ownProps ps) ""
  | .array xs => querystring.addProps (indexedProps 0 xs) ""
  | _ => .ok ""

/-! ## `JSON.stringify` -/

/-- A lowercase hexadecimal digit. -/
def hexDigitLower (n : Nat) : Char :=
  if n < 10 then Char.ofNat (48 + n) else Char.ofNat (87 + n)

/-- The escape `\uXXXX` of a code unit. -/
def JSON.unicodeEscape (u : Nat) : List Char :=
  [Char.ofNat 92, Char.ofNat 117, hexDigitLower (u / 4096 % 16), hexDigitLower (u / 256 % 16),
    hexDigitLower (u / 16 % 16), hexDigitLower (u % 16)]

/-- `QuoteJSONString` on one code unit that is no surrogate: the short escapes,
`\u00XX` for the other control characters, the character itself otherwise. -/
def JSON.quoteUnit (n : Nat) : List Char :=
  if n = 8 then [Char.ofNat 92, Char.ofNat 98]
  else if n = 9 then [Char.ofNat 92, Char.ofNat 116]
  else if n = 10 then [Char.ofNat 92, Char.ofNat 110]
  else if n = 12 then [Char.ofNat 92, Char.ofNat 102]
  else if n = 13 then [Char.ofNat 92, Char.ofNat 114]
  else if n = 34 then [Char.ofNat 92, Char.ofNat 34]
  else if n = 92 then [Char.ofNat 92, Char.ofNat 92]
  else if n < 32 then JSON.unicodeEscape n
  else [Char.ofNat n]

/-- The escape of a pending high surrogate that found no low surrogate. -/
def JSON.flushSurrogate : Option Nat → List Char
  | some h => JSON.unicodeEscape h
  | none => []

/-- `QuoteJSONString` on the code units of a string, `pending` being the high
surrogate just read: a surrogate pair is the character it encodes, a surrogate
on its own is escaped as `\uXXXX`. -/
def JSON.quoteUnits : Option Nat → List Nat → List Char
  | pending, [] => JSON.flushSurrogate pending
  | pending, u :: rest =>
    if 56320 ≤ u ∧ u < 57344 then
      match pending with
      | some h =>
        Char.ofNat (65536 + (h - 55296) * 1024 + (u - 56320)) :: JSON.quoteUnits none rest
      | none => JSON.unicodeEscape u ++ JSON.quoteUnits none rest
    else if 55296 ≤ u ∧ u < 56320 then
      JSON.flushSurrogate pending ++ JSON.quoteUnits (some u) rest
    else JSON.flushSurrogate pending ++ JSON.quoteUnit u ++ JSON.quoteUnits none rest

/-- `QuoteJSONString`: the string between double quotes, escaped. -/
def JSON.quote (s : JSString) : String :=
  String.mk ([Char.ofNat 34] ++ JSON.quoteUnits none s.units ++ [Char.ofNat 34])

/-- The text of one member of an object, when its value has one. -/
def JSON.memberText (kv : JSString × Option String) : Option String :=
  match kv.2 with
  | some t => some (JSON.quote kv.1 ++ ":" ++ t)
  | none => none

/-- `JSON.stringify(value)`: `none` stands for the result `undefined`. -/
def JSON.stringify : JSValue → Option String
  | .undefined => none
  | .null => some "null"
  | .boolean b => some (if b then "true" else "false")
  | .number (.finite neg m e) => some (JSNumber.finite neg m e).toStr
  | .number _ => some "null"
  | .string s => some (JSON.quote s)
  | .array xs => some ("[" ++ String.intercalate "," (elems xs) ++ "]")
  | .object ps =>
    some ("\x7b" ++ String.intercalate "," ((ownProps (members ps)).filterMap JSON.memberText)
      ++ "\x7d")
where
  /-- The elements of an array; `undefined` serializes as `null` there. -/
  elems : List JSValue → List String
    | [] => []
    | x :: xs => (JSON.stringify x).getD "null" :: elems xs
  /-- The serialized values of the properties of an object; a property whose
  value serializes as `undefined` is left out of the text. -/
  members : List (JSString × JSValue) → List (JSString × Option String)
    | [] => []
    | (k, v) :: ps => (k, JSON.stringify v) :: members ps

/-! ## `encodeURL` (`redmine.js` lines 72-79) -/

/-- The call `path.slice(0, 1)`: the first code unit of a string, the first
element of an array, and a `TypeError` on a value that has no method `slice`. -/
def slice01 : JSValue → Except Thrown JSValue
  | .string s => .ok (.string ⟨s.units.take 1⟩)
  | .array xs => .ok (.array (xs.take 1))
  | .undefined => .error (Thrown.TypeError "Cannot read properties of undefined (reading slice)")
  | .null => .error (Thrown.TypeError "Cannot read properties of null (reading slice)")
  | _ => .error (Thrown.TypeError "path.slice is not a function")

/-- The method `Redmine.prototype.encodeURL`. -/
def encodeURL (path params : JSValue) : Except Thrown JSValue := do
  -- if (path.slice(0, 1) != '/') path = '/' + path;
  let first ← slice01 path
  let path1 :=
    if !looseEqString first "/" then JSValue.string (JSString.ofString "/" ++ toJSString path)
    else path
  let query ← querystring.stringify params
  -- if (query) path = path + '?' + query;
  if query ≠ "" then
    return .string (toJSString path1 ++ JSString.ofString "?" ++ JSString.ofString query)
  else return path1

/-! ## `JSON.parse` -/

/-- JSON white space: space, tab, line feed, carriage return. -/
def JSON.isWs (c : Char) : Bool :=
  c.toNat = 32 || c.toNat = 9 || c.toNat = 10 || c.toNat = 13

/-- Drop leading white space. -/
def JSON.skipWs : List Char → List Char
  | [] => []
  | c :: cs => if JSON.isWs c then JSON.skipWs cs else c :: cs

/-- Match the characters of a literal at the head of the input. -/
def JSON.expect : List Char → List Char → Option (List Char)
  | [], cs => some cs
  | _ :: _, [] => none
  | l :: ls, c :: cs => if l = c then JSON.expect ls cs else none

/-- The value of a hexadecimal digit. -/
def JSON.hexVal (c : Char) : Option Nat :=
  let n := c.toNat
  if 48 ≤ n ∧ n ≤ 57 then some (n - 48)
  else if 65 ≤ n ∧ n ≤ 70 then some (n - 55)
  else if 97 ≤ n ∧ n ≤ 102 then some (n - 87)
  else none

/-- The code unit written by four hexadecimal digits. -/
def JSON.hex4 (a b c d : Char) : Option Nat :=
  match JSON.hexVal a, JSON.hexVal b, JSON.hexVal c, JSON.hexVal d with
  | some x, some y, some z, some w => some (((x * 16 + y) * 16 + z) * 16 + w)
  | _, _, _, _ => none

/-- The code unit of a short escape `\"`, `\\`, `\/`, `\b`, `\f`, `\n`, `\r`,
`\t`. -/
def JSON.shortEscape (c : Char) : Option Nat :=
  let n := c.toNat
  if n = 34 then some 34
  else if n = 92 then some 92
  else if n = 47 then some 47
  else if n = 98 then some 8
  else if n = 102 then some 12
  else if n = 110 then some 10
  else if n = 114 then some 13
  else if n = 116 then some 9
  else none

/-- The error `JSON.parse` throws on a text that is not JSON. -/
def JSON.syntaxError : Thrown :=
  Thrown.SyntaxError "Unexpected token in JSON"

/-- The rest of a string literal, after its opening quote, `acc` being the code
units read so far: a `\uXXXX` escape is the code unit it writes, another
character is its UTF-16 encoding. -/
def JSON.parseString : List Char → List Nat → Except Thrown (JSString × List Char)
  | [], _ => .error JSON.syntaxError
  | c :: rest, acc =>
    if c.toNat = 34 then .ok (⟨acc⟩, rest)
    else if c.toNat < 32 then .error JSON.syntaxError
    else if c.toNat = 92 then
      match rest with
      | [] => .error JSON.syntaxError
      | e :: rest1 =>
        if e.toNat = 117 then
          match rest1 with
          | a :: b :: c1 :: d :: rest2 =>
            match JSON.hex4 a b c1 d with
            | none => .error JSON.syntaxError
            | some x => JSON.parseString rest2 (acc ++ [x])
          | _ => .error JSON.syntaxError
        else
          match JSON.shortEscape e with
          | some x => JSON.parseString rest1 (acc ++ [x])
          | none => .error JSON.syntaxError
    else JSON.parseString rest (acc ++ utf16Units c)

/-- The leading decimal digits of the input, and what follows them. -/
def JSON.takeDigits : List Char → List Nat × List Char
  | [] => ([], [])
  | c :: cs =>
    if 48 ≤ c.toNat ∧ c.toNat ≤ 57 then
      ((c.toNat - 48) :: (JSON.takeDigits cs).1, (JSON.takeDigits cs).2)
    else ([], c :: cs)

/-- The natural number written by a list of decimal digits. -/
def JSON.natOfDigits (ds : List Nat) : Nat :=
  ds.foldl (fun a d => a * 10 + d) 0

/-- The fraction of a number literal, if there is one: `.` and at least one
digit. -/
def JSON.parseFraction : List Char → Option (List Nat × List Char)
  | [] => some ([], [])
  | c :: rest =>
    if c.toNat = 46 then
      if (JSON.takeDigits rest).1 = [] then none else some (JSON.takeDigits rest)
    else some ([], c :: rest)

/-- The digits of an exponent, with their sign. -/
def JSON.exponentDigits (neg : Bool) (cs : List Char) : Option (Int × List Char) :=
  if (JSON.takeDigits cs).1 = [] then none
  else
    some (if neg then - Int.ofNat (JSON.natOfDigits (JSON.takeDigits cs).1)
      else Int.ofNat (JSON.natOfDigits (JSON.takeDigits cs).1), (JSON.takeDigits cs).2)

/-- The exponent of a number literal, if there is one: `e` or `E`, an optional
sign and at least one digit. -/
def JSON.parseExponent : List Char → Option (Int × List Char)
  | [] => some (0, [])
  | c :: rest =>
    if c.toNat = 101 ∨ c.toNat = 69 then
      match rest with
      | [] => none
      | sg :: rest1 =>
        if sg.toNat = 45 then JSON.exponentDigits true rest1
        else if sg.toNat = 43 then JSON.exponentDigits false rest1
        else JSON.exponentDigits false (sg :: rest1)
    else some (0, c :: rest)

/-- The sign of a number literal: an optional `-`. -/
def JSON.parseSign : List Char → Bool × List Char
  | [] => (false, [])
  | c :: rest => if c.toNat = 45 then (true, rest) else (false, c :: rest)

/-- A number literal: `-`? int frac? exp?, where int is `0` or starts with a
digit other than `0`.  The value is the double nearest to the decimal the
literal writes. -/
def JSON.parseNumber (cs : List Char) : Except Thrown (JSValue × List Char) :=
  let sign := JSON.parseSign cs
  let ip := JSON.takeDigits sign.2
  if ip.1 = [] ∨ (1 < ip.1.length ∧ ip.1.head? = some 0) then .error JSON.syntaxError
  else
    match JSON.parseFraction ip.2 with
    | none => .error JSON.syntaxError
    | some (fp, r1) =>
      match JSON.parseExponent r1 with
      | none => .error JSON.syntaxError
      | some (ex, r2) =>
        .ok (.number (JSNumber.ofDecimal sign.1 (JSON.natOfDigits (ip.1 ++ fp))
          (ex - Int.ofNat fp.length)), r2)

mutual
/-- A JSON value at the head of the input, and the input left after it.  The
first argument bounds the depth of the recursion. -/
def JSON.parseValue : Nat → List Char → Except Thrown (JSValue × List Char)
  | 0, _ => .error (Thrown.RangeError "Maximum call stack size exceeded")
  | fuel + 1, cs =>
    match JSON.skipWs cs with
    | [] => .error JSON.syntaxError
    | c :: rest =>
      if c.toNat = 123 then
        match JSON.skipWs rest with
        | [] => .error JSON.syntaxError
        | d :: rest1 =>
          if d.toNat = 125 then .ok (.object [], rest1)
          else JSON.parseMembers fuel (d :: rest1) []
      else if c.toNat = 91 then
        match JSON.skipWs rest with
        | [] => .error JSON.syntaxError
        | d :: rest1 =>
          if d.toNat = 93 then .ok (.array [], rest1)
          else JSON.parseElements fuel (d :: rest1) []
      else if c.toNat = 34 then
        match JSON.parseString rest [] with
        | .ok (s, r) => .ok (.string s, r)
        | .error e => .error e
      else
        match JSON.expect "true".toList (c :: rest) with
        | some r => .ok (.boolean true, r)
        | none =>
          match JSON.expect "false".toList (c :: rest) with
          | some r => .ok (.boolean false, r)
          | none =>
            match JSON.expect "null".toList (c :: rest) with
            | some r => .ok (.null, r)
            | none => JSON.parseNumber (c :: rest)
/-- The elements of an array up to its closing bracket. -/
def JSON.parseElements : Nat → List Char → List JSValue →
    Except Thrown (JSValue × List Char)
  | 0, _, _ => .error (Thrown.RangeError "Maximum call stack size exceeded")
  | fuel + 1, cs, acc =>
    match JSON.parseValue fuel cs with
    | .error e => .error e
    | .ok (v, r) =>
      match JSON.skipWs r with
      | [] => .error JSON.syntaxError
      | c :: r1 =>
        if c.toNat = 44 then JSON.parseElements fuel r1 (acc ++ [v])
        else if c.toNat = 93 then .ok (.array (acc ++ [v]), r1)
        else .error JSON.syntaxError
/-- The members of an object up to its closing brace, each assigned to the
object in turn: a repeated key keeps its place and takes the last value. -/
def JSON.parseMembers : Nat → List Char → List (JSString × JSValue) →
    Except Thrown (JSValue × List Char)
  | 0, _, _ => .error (Thrown.RangeError "Maximum call stack size exceeded")
  | fuel + 1, cs, acc =>
    match JSON.skipWs cs with
    | [] => .error JSON.syntaxError
    | q :: r =>
      if q.toNat = 34 then
        match JSON.parseString r [] with
        | .error e => .error e
        | .ok (k, r1) =>
          match JSON.skipWs r1 with
          | [] => .error JSON.syntaxError
          | colon :: r2 =>
            if colon.toNat = 58 then
              match JSON.parseValue fuel r2 with
              | .error e => .error e
              | .ok (v, r3) =>
                match JSON.skipWs r3 with
                | [] => .error JSON.syntaxError
                | c :: r4 =>
                  if c.toNat = 44 then JSON.parseMembers fuel r4 (assignProp acc k v)
                  else if c.toNat = 125 then .ok (.object (assignProp acc k v), r4)
                  else .error JSON.syntaxError
            else .error JSON.syntaxError
      else .error JSON.syntaxError
end

/-- `JSON.parse(text)`: the value the text writes, or the `SyntaxError` thrown
when the text is not (exactly) one JSON value.  The recursion bound is twice the
length of the text and is never reached (`JSON_parse_no_RangeError`). -/
def JSON.parse (text : String) : Except Thrown JSValue :=
  match JSON.parseValue (2 * text.length + 2) text.toList with
  | .error e => .error e
  | .ok (v, rest) =>
    match JSON.skipWs rest with
    | [] => .ok v
    | _ :: _ => .error JSON.syntaxError

/-! ## `http.request` (Node.js, `lib/_http_client.js` and `lib/_http_outgoing.js`) -/

/-- The object `opts` handed to `http.request`. -/
structure RequestOptions where
  host : JSValue
  path : JSValue
  method : String
  headers : List (String × JSValue)
  deriving Repr

/-- The request object `req`, as far as this program acts on it: the options it
was made from, the headers set on it after its creation, the body written and
whether `end()` was reached. -/
structure ClientRequest where
  opts : RequestOptions
  headersSet : List (String × JSValue)
  written : List String
  ended : Bool
  deriving Repr

/-- A code unit matched by `INVALID_PATH_REGEX`, `/[^!-ÿ]/`. -/
def http.invalidPathUnit (u : Nat) : Bool :=
  decide (u < 33 ∨ 255 < u)

/-- A code unit matched by `headerCharRegex`, `/[^\t\x20-\x7e\x80-\xff]/`. -/
def http.invalidHeaderUnit (u : Nat) : Bool :=
  !(u = 9 || (32 ≤ u && u ≤ 126) || (128 ≤ u && u ≤ 255))

/-- A code unit of an HTTP token: a letter, a digit, or one of
``^ _ ` - ! # $ % & ' * + . | ~``. -/
def http.tokenUnit (u : Nat) : Bool :=
  (48 ≤ u && u ≤ 57) || (65 ≤ u && u ≤ 90) || (94 ≤ u && u ≤ 122)
    || u = 33 || (35 ≤ u && u ≤ 39) || u = 42 || u = 43 || u = 45 || u = 46
    || u = 124 || u = 126

/-- `checkIsHttpToken`: a non-empty run of token characters. -/
def http.isToken (s : String) : Bool :=
  decide (codeUnits s ≠ []) && (codeUnits s).all http.tokenUnit

/-- `validateHeaderValue`: the value `undefined` and a value whose text has a
character outside the header characters are refused. -/
def http.validateHeaderValue (name : String) (value : JSValue) : Except Thrown Unit :=
  match value with
  | .undefined =>
    .error (Thrown.TypeError ("Invalid value \"undefined\" for header \"" ++ name ++ "\""))
  | v =>
    if (toJSString v).units.any http.invalidHeaderUnit then
      .error (Thrown.TypeError ("Invalid character in header content [\"" ++ name ++ "\"]"))
    else .ok ()

/-- `req.setHeader(name, value)`: the name has to be a token and the value
valid. -/
def http.setHeader (req : ClientRequest) (name : String) (value : JSValue) :
    Except Thrown ClientRequest := do
  if !http.isToken name then
    throw (Thrown.TypeError ("Header name must be a valid HTTP token [\"" ++ name ++ "\"]"))
  http.validateHeaderValue name value
  return { req with headersSet := req.headersSet ++ [(name, value)] }

/-- The headers of `options.headers`, each checked as by `setHeader`. -/
def http.validateHeaders : List (String × JSValue) → Except Thrown Unit
  | [] => .ok ()
  | (name, value) :: rest => do
    if !http.isToken name then
      throw (Thrown.TypeError ("Header name must be a valid HTTP token [\"" ++ name ++ "\"]"))
    http.validateHeaderValue name value
    http.validateHeaders rest

/-- The `Host` header `http.request` sets from `options.host`, when that is a
non-empty string: it has to be a valid header value. -/
def http.validateHostHeader (host : JSValue) : Except Thrown Unit :=
  if truthy host then http.validateHeaderValue "Host" host else .ok ()

/-- The synchronous part of `http.request(options, callback)`, in the order of
the `ClientRequest` constructor: a path with a character outside
U+0021..U+00FF, a host that is neither a string nor `undefined` nor `null`, a
method that is not a token, and an invalid header are refused with a
`TypeError`; otherwise the request object is returned. -/
def http.request (opts : RequestOptions) : Except Thrown ClientRequest := do
  if truthy opts.path && (toJSString opts.path).units.any http.invalidPathUnit then
    throw (Thrown.TypeError "Request path contains unescaped characters")
  match opts.host with
  | .undefined => pure ()
  | .null => pure ()
  | .string _ => pure ()
  | _ => throw (Thrown.TypeError "The \"options.host\" property must be of type string")
  if opts.method ≠ "" && !http.isToken opts.method then
    throw (Thrown.TypeError "Method must be a valid HTTP token")
  http.validateHeaders opts.headers
  http.validateHostHeader opts.host
  return { opts := opts, headersSet := [], written := [], ended := false }

/-! ## `request` (`redmine.js` lines 84-134): building and sending -/

/-- The object literal `opts` of `request` (lines 85-92). -/
def requestOptions (self : Client) (method : String) (path params : JSValue) :
    Except Thrown RequestOptions := do
  let host ← getProp self.config "host"
  let path1 ← if method = "GET" then encodeURL path params else pure path
  let apiKey ← getProp self.config "apiKey"
  return { host := host, path := path1, method := method,
           headers := [("X-Redmine-API-Key", apiKey)] }

/-- The synchronous part of `Redmine.prototype.request`: `http.request(opts, ..)`,
the headers and body of a method other than `GET`, and `req.end()`.  The
listeners it registers are `onResponse`, `onData`, `onEnd` and `onError`
below. -/
def request (self : Client) (method : String) (path params : JSValue) :
    Except Thrown ClientRequest := do
  let opts ← requestOptions self method path params
  let req ← http.request opts
  if method ≠ "GET" then
    -- var body = JSON.stringify(params); req.setHeader('Content-Length', body.length);
    match JSON.stringify params with
    | none =>
      throw (Thrown.TypeError "Cannot read properties of undefined (reading length)")
    | some body =>
      let req1 ← http.setHeader req "Content-Length" (.number (JSNumber.ofNat (jsLength body)))
      let format ← getProp self.config "format"
      let contentType :=
        if looseEqString format "json" then "application/json" else "application/xml"
      let req2 ← http.setHeader req1 "Content-Type" (.string (JSString.ofString contentType))
      return { req2 with written := [body], ended := true }
  else
    return { req with ended := true }

/-! ## `request`: the listeners (lines 94-124) -/

/-- The response object `res`, as far as the source reads it. -/
structure IncomingMessage where
  statusCode : Nat
  statusMessage : String
  deriving DecidableEq, Repr

/-- The events the transport delivers to the listeners of one request. -/
inductive Event where
  | response (res : IncomingMessage)
  | data (chunk : String)
  | streamEnd
  | error (err : JSValue)
  deriving Repr

/-- The state the listeners of one request share.
* `callback`: the variable `callback` still holds the caller's function (it is
  `null` otherwise);
* `responded`: the one-time `response` listener has run;
* `res`: the response whose `data` and `end` listeners are registered;
* `body`: the variable `body` of the `response` listener;
* `calls`: the invocations of the caller's function, `(error, data)`, in order;
* `parsed`: the texts `JSON.parse` was called on;
* `thrown`: the exceptions that left a listener. -/
structure RequestState where
  callback : Bool
  responded : Bool
  res : Option IncomingMessage
  body : String
  calls : List (JSValue × JSValue)
  parsed : List String
  thrown : List Thrown

/-- The state when `request` returns. -/
def RequestState.init : RequestState :=
  { callback := true, responded := false, res := none, body := "",
    calls := [], parsed := [], thrown := [] }

/-- The statements `callback(err, data); callback = null;`.  The caller's
function is taken to return normally.  Calling the variable once it is `null`
throws a `TypeError`, and the assignment is not reached. -/
def invokeCallback (s : RequestState) (err data : JSValue) : RequestState :=
  if s.callback then { s with calls := s.calls ++ [(err, data)], callback := false }
  else { s with thrown := s.thrown ++ [Thrown.TypeError "callback is not a function"] }

/-- The error string of line 96. -/
def statusError (res : IncomingMessage) : JSValue :=
  .string (JSString.ofString "Server returns : " ++ JSString.ofString res.statusMessage
    ++ JSString.ofString " (" ++ JSString.ofString (JSNumber.ofNat res.statusCode).toStr
    ++ JSString.ofString ")")

/-- The data object of line 112. -/
def statusData (res : IncomingMessage) : JSValue :=
  .object [(JSString.ofString "statusCode", .number (JSNumber.ofNat res.statusCode)),
           (JSString.ofString "statusMessage", .string (JSString.ofString res.statusMessage))]

/-- The `response` listener (lines 94-118), which `http.request` registers for
one event. -/
def onResponse (s : RequestState) (res : IncomingMessage) : RequestState :=
  if s.responded then s
  else
    let s1 := { s with responded := true }
    if res.statusCode ≠ 200 ∧ res.statusCode ≠ 201 then
      invokeCallback s1 (statusError res) .null
    else
      { s1 with res := some res, body := "" }

/-- The `data` listener (lines 103-105). -/
def onData (s : RequestState) (chunk : String) : RequestState :=
  match s.res with
  | none => s
  | some _ => { s with body := s.body ++ chunk }

/-- The `end` listener (lines 107-117). -/
def onEnd (s : RequestState) : RequestState :=
  match s.res with
  | none => s
  | some res =>
    if s.body ≠ "" then
      match JSON.parse s.body with
      | .ok data => invokeCallback { s with parsed := s.parsed ++ [s.body] } .null data
      | .error e => { s with parsed := s.parsed ++ [s.body], thrown := s.thrown ++ [e] }
    else invokeCallback s .null (statusData res)

/-- The `error` listener of `req` (lines 120-124). -/
def onError (s : RequestState) (err : JSValue) : RequestState :=
  invokeCallback s err .null

/-- One event delivered to the listeners. -/
def step (s : RequestState) : Event → RequestState
  | .response res => onResponse s res
  | .data chunk => onData s chunk
  | .streamEnd => onEnd s
  | .error err => onError s err

/-- A sequence of events delivered in order. -/
def run (s : RequestState) (evs : List Event) : RequestState :=
  evs.foldl step s

/-! ## The resource methods (`redmine.js` lines 143-163) -/

/-- The method `Redmine.prototype.get_issue_by_id`. -/
def get_issue_by_id (self : Client) (id params : JSValue) : Except Thrown ClientRequest := do
  if typeof id ≠ "number" then throw (Thrown.Error "Issue ID must be an integer above 0 !")
  let format ← getProp self.config "format"
  request self "GET"
    (.string (JSString.ofString "/issues/" ++ toJSString id ++ JSString.ofString "."
      ++ toJSString format)) params

/-- The method `Redmine.prototype.issues`. -/
def issues (self : Client) (params : JSValue) : Except Thrown ClientRequest := do
  let format ← getProp self.config "format"
  request self "GET"
    (.string (JSString.ofString "/issues" ++ JSString.ofString "." ++ toJSString format)) params

/-- The method `Redmine.prototype.create_issue`. -/
def create_issue (self : Client) (issue : JSValue) : Except Thrown ClientRequest := do
  let format ← getProp self.config "format"
  request self "POST" (.string (JSString.ofString "/issues." ++ toJSString format)) issue

/-! ## Terminal outcomes of a request, read off the transport events -/

/-- The event is a transport error. -/
def Event.isError : Event → Bool
  | .error _ => true
  | _ => false

/-- The event is the end of the response stream. -/
def Event.isEnd : Event → Bool
  | .streamEnd => true
  | _ => false

/-- The status of the response is 200 or 201. -/
def okStatus (res : IncomingMessage) : Bool :=
  decide (res.statusCode = 200 ∨ res.statusCode = 201)

/-- The response of the request: the first `response` event of the sequence. -/
def firstResponse : List Event → Option IncomingMessage
  | [] => none
  | .response res :: _ => some res
  | _ :: evs => firstResponse evs

/-- The events delivered after the response. -/
def afterResponse : List Event → List Event
  | [] => []
  | .response _ :: evs => evs
  | _ :: evs => afterResponse evs

/-- The chunks of data delivered before the stream ends. -/
def chunksBeforeEnd : List Event → List String
  | [] => []
  | .streamEnd :: _ => []
  | .data chunk :: evs => chunk :: chunksBeforeEnd evs
  | _ :: evs => chunksBeforeEnd evs

/-- The body of the response: the chunks delivered after the response and
before the end of its stream, concatenated in the order of arrival. -/
def responseBody (evs : List Event) : String :=
  String.join (chunksBeforeEnd (afterResponse evs))

/-- Transport failure: the transport reports an error. -/
def transportFailed (evs : List Event) : Bool :=
  evs.any Event.isError

/-- HTTP-level failure: the response has a status other than 200 and 201. -/
def httpFailed (evs : List Event) : Bool :=
  match firstResponse evs with
  | some res => !okStatus res
  | none => false

/-- Success: the response has status 200 or 201 and its stream ends. -/
def succeeded (evs : List Event) : Bool :=
  match firstResponse evs with
  | some res => okStatus res && (afterResponse evs).any Event.isEnd
  | none => false

/-- The sequence of events reaches a terminal outcome: success, HTTP-level
failure or transport failure. -/
def reachesTerminal (evs : List Event) : Bool :=
  transportFailed evs || httpFailed evs || succeeded evs

/-! ## The address the specification describes -/

/-- The Unicode scalar values a sequence of UTF-16 code units encodes, when it
is well formed: every surrogate is half of a pair. -/
def scalarValues : List Nat → Option (List Nat)
  | [] => some []
  | u :: rest =>
    if u < 55296 ∨ (57344 ≤ u ∧ u < 65536) then
      match scalarValues rest with
      | some cs => some (u :: cs)
      | none => none
    else if 55296 ≤ u ∧ u < 56320 then
      match rest with
      | [] => none
      | v :: rest1 =>
        if 56320 ≤ v ∧ v < 57344 then
          match scalarValues rest1 with
          | some cs => some ((65536 + (u - 55296) * 1024 + (v - 56320)) :: cs)
          | none => none
        else none
    else none

/-- The UTF-8 encoding of a Unicode scalar value. -/
def utf8OfScalar (n : Nat) : List Nat :=
  if n < 128 then [n]
  else if n < 2048 then [192 + n / 64, 128 + n % 64]
  else if n < 65536 then [224 + n / 4096, 128 + n / 64 % 64, 128 + n % 64]
  else [240 + n / 262144, 128 + n / 4096 % 64, 128 + n / 64 % 64, 128 + n % 64]

/-- Percent-encoding of a text given by its scalar values: an unreserved
character stays, every other character becomes `%XX` for each byte of its UTF-8
encoding. -/
def percentEncodeScalars (cs : List Nat) : List Char :=
  cs.flatMap fun n =>
    if n < 128 ∧ unreserved n = true then [Char.ofNat n] else (utf8OfScalar n).flatMap percentByte

/-- Percent-encoding of a string, which has to be well-formed Unicode. -/
def percentEncode (s : JSString) : Option String :=
  match scalarValues s.units with
  | some cs => some (String.mk (percentEncodeScalars cs))
  | none => none

/-- The percent-encoded text of a parameter value: a string is encoded, a
finite number and a boolean print (the text of a number below `1e21` has no
character to encode), and every other value has the empty text. -/
def paramText : JSValue → Option String
  | .string s => percentEncode s
  | .number (.finite neg m e) =>
    if absLt1e21 m e then some (JSNumber.finite neg m e).toStr
    else some (String.mk (percentEncodeScalars
      ((JSNumber.finite neg m e).toStr.toList.map Char.toNat)))
  | .boolean b => some (if b then "true" else "false")
  | _ => some ""

/-- The texts of a list of values. -/
def paramTexts : List JSValue → Option (List String)
  | [] => some []
  | x :: xs =>
    match paramText x, paramTexts xs with
    | some t, some ts => some (t :: ts)
    | _, _ => none

/-- The entries `key=value` of one parameter: one for each element when the
value is an array, one otherwise. -/
def formEntries (kv : JSString × JSValue) : Option (List String) :=
  match percentEncode kv.1 with
  | none => none
  | some k =>
    match kv.2 with
    | .array vs =>
      match paramTexts vs with
      | some ts => some (ts.map fun t => k ++ "=" ++ t)
      | none => none
    | v =>
      match paramText v with
      | some t => some [k ++ "=" ++ t]
      | none => none

/-- The entries of a list of parameters, in their order. -/
def formEntriesOf : List (JSString × JSValue) → Option (List String)
  | [] => some []
  | kv :: rest =>
    match formEntries kv, formEntriesOf rest with
    | some es, some more => some (es ++ more)
    | _, _ => none

/-- The form-encoded query string of a parameter mapping: its entries
`key=value`, keys and values percent-encoded, joined by `&`; `none` when a key
or a string value is not well-formed Unicode. -/
def formEncode : JSValue → Option String
  | .object ps =>
    match formEntriesOf (ownProps ps) with
    | some es => some (String.intercalate "&" es)
    | none => none
  | .array xs =>
    match formEntriesOf (indexedProps 0 xs) with
    | some es => some (String.intercalate "&" es)
    | none => none
  | _ => some ""

/-- The fields with one more entry: a `&` goes in between when there are fields
already. -/
def appendEntry (fields entry : String) : String :=
  (if fields ≠ "" then fields ++ "&" else fields) ++ entry

/-- The path begins with the separator `/`. -/
def beginsWithSlash (path : JSString) : Prop :=
  path.units.head? = some 47

instance (path : JSString) : Decidable (beginsWithSlash path) := by
  unfold beginsWithSlash
  infer_instance

/-- The address of the specification's `build(path, params)` for a path and the
form-encoded query string of the parameters: the path, with a separator put in
front when it does not begin with one, followed by `?` and the query string when
that is not empty. -/
def addressSpec (path : JSString) (query : String) : JSString :=
  let p := if beginsWithSlash path then path else JSString.ofString "/" ++ path
  if query = "" then p else p ++ JSString.ofString "?" ++ JSString.ofString query

/-! ## Values used in the examples -/

/-- A host name. -/
def sampleHost : JSValue := .string "redmine.example.org"

/-- A config with an API key and no format. -/
def sampleConfig : JSValue := .object [("apiKey", .string "0123abcd")]

/-- The client `new Redmine(sampleHost, sampleConfig)`. -/
def sampleClient : Client :=
  ⟨.object [("apiKey", .string "0123abcd"), ("host", .string "redmine.example.org"),
    ("format", .string "json")]⟩

/-- The number 1.5. -/
def onePointFive : JSNumber := .finite false 3 (-1)

/-- A config that gives a username and nothing else. -/
def usernameOnlyConfig : JSValue := .object [("username", .string "admin")]

/-- A config with an API key and the format `yaml`. -/
def yamlConfig : JSValue :=
  .object [("apiKey", .string "0123abcd"), ("format", .string "yaml")]

/-- A config with an API key and the format `xml`. -/
def xmlConfig : JSValue :=
  .object [("apiKey", .string "0123abcd"), ("format", .string "xml")]

/-- The client `new Redmine(sampleHost, xmlConfig)`. -/
def xmlClient : Client :=
  ⟨.object [("apiKey", .string "0123abcd"), ("format", .string "xml"),
    ("host", .string "redmine.example.org")]⟩

/-- Parameters whose one value is the string of the single code unit U+D800, a
surrogate without its pair. -/
def loneSurrogateParams : JSValue := .object [("q", .string ⟨[55296]⟩)]

/-- Parameters of a search: a number and a string with a space and a letter
outside ASCII. -/
def searchParams : JSValue :=
  .object [("limit", .number (JSNumber.ofNat 10)), ("subject", .string "café au lait")]

/-- A config with a username and a password and no API key. -/
def passwordConfig : JSValue :=
  .object [("username", .string "admin"), ("password", .string "secret")]

/-- The client `new Redmine(sampleHost, passwordConfig)`. -/
def passwordClient : Client :=
  ⟨.object [("username", .string "admin"), ("password", .string "secret"),
    ("host", .string "redmine.example.org"), ("format", .string "json")]⟩

/-- The request that `issues(searchParams)` sends on the sample client. -/
def searchRequest : ClientRequest :=
  { opts := { host := .string "redmine.example.org",
              path := .string "/issues.json?limit=10&subject=caf%C3%A9%20au%20lait",
              method := "GET",
              headers := [("X-Redmine-API-Key", .string "0123abcd")] },
    headersSet := [], written := [], ended := true }

/-! ## `JSON.parse`: the recursion bound is never reached -/

theorem skipWs_length_le (cs : List Char) : (JSON.skipWs cs).length ≤ cs.length := by
  induction cs with
  | nil => simp [JSON.skipWs]
  | cons c cs ih =>
    unfold JSON.skipWs
    split_ifs
    · simp only [List.length_cons]
      omega
    · exact Nat.le_refl _

theorem parseString_spec_aux (n : Nat) :
    ∀ (cs : List Char) (acc : List Nat), cs.length ≤ n →
      (∀ m, JSON.parseString cs acc ≠ .error (.RangeError m))
      ∧ (∀ s r, JSON.parseString cs acc = .ok (s, r) → r.length < cs.length) := by
  induction n with
  | zero =>
    intro cs acc hlen
    have : cs = [] := List.length_eq_zero.mp (Nat.le_zero.mp hlen)
    subst this
    simp [JSON.parseString, JSON.syntaxError]
  | succ n ih =>
    intro cs acc hlen
    unfold JSON.parseString
    repeat' split
    all_goals first
      | (simp [JSON.syntaxError]; done)
      | (simp only [List.length_cons] at hlen ⊢
         refine ⟨fun m => (ih _ _ (by omega)).1 m, fun s r h => ?_⟩
         have := (ih _ _ (by omega)).2 s r h
         omega)

theorem parseString_spec (cs : List Char) (acc : List Nat) :
    (∀ m, JSON.parseString cs acc ≠ .error (.RangeError m))
    ∧ (∀ s r, JSON.parseString cs acc = .ok (s, r) → r.length < cs.length) :=
  parseString_spec_aux cs.length cs acc (Nat.le_refl _)

theorem takeDigits_length (cs : List Char) :
    (JSON.takeDigits cs).2.length + (JSON.takeDigits cs).1.length = cs.length := by
  induction cs with
  | nil => simp [JSON.takeDigits]
  | cons c cs ih =>
    unfold JSON.takeDigits
    split_ifs
    · simp only [List.length_cons]
      omega
    · simp

theorem expect_length (lit cs r : List Char) (h : JSON.expect lit cs = some r) :
    r.length + lit.length = cs.length := by
  induction lit generalizing cs with
  | nil =>
    simp [JSON.expect] at h
    simp [h]
  | cons l ls ih =>
    cases cs with
    | nil => simp [JSON.expect] at h
    | cons c cs =>
      simp only [JSON.expect] at h
      split_ifs at h
      have := ih cs h
      simp only [List.length_cons]
      omega

theorem parseSign_length (cs : List Char) : (JSON.parseSign cs).2.length ≤ cs.length := by
  cases cs with
  | nil => simp [JSON.parseSign]
  | cons c rest =>
    simp only [JSON.parseSign]
    split_ifs <;> simp

theorem parseFraction_length (cs r : List Char) (fp : List Nat)
    (h : JSON.parseFraction cs = some (fp, r)) : r.length ≤ cs.length := by
  cases cs with
  | nil =>
    simp [JSON.parseFraction] at h
    simp [h.2.symm]
  | cons c rest =>
    simp only [JSON.parseFraction] at h
    have hd := takeDigits_length rest
    split_ifs at h
    · simp only [Option.some.injEq] at h
      rw [h] at hd
      simp only [List.length_cons] at hd ⊢
      omega
    · simp only [Option.some.injEq, Prod.mk.injEq] at h
      rw [← h.2]

theorem exponentDigits_length (neg : Bool) (cs r : List Char) (ex : Int)
    (h : JSON.exponentDigits neg cs = some (ex, r)) : r.length ≤ cs.length := by
  unfold JSON.exponentDigits at h
  have hd := takeDigits_length cs
  split_ifs at h
  all_goals
    simp only [Option.some.injEq, Prod.mk.injEq] at h
    rw [← h.2]
    omega

theorem parseExponent_length (cs r : List Char) (ex : Int)
    (h : JSON.parseExponent cs = some (ex, r)) : r.length ≤ cs.length := by
  cases cs with
  | nil =>
    simp [JSON.parseExponent] at h
    simp [h.2.symm]
  | cons c rest =>
    simp only [JSON.parseExponent] at h
    split_ifs at h
    · cases rest with
      | nil => simp at h
      | cons sg rest1 =>
        simp only at h
        split_ifs at h
        · have := exponentDigits_length _ _ _ _ h
          simp only [List.length_cons]
          omega
        · have := exponentDigits_length _ _ _ _ h
          simp only [List.length_cons]
          omega
        · have := exponentDigits_length _ _ _ _ h
          simp only [List.length_cons] at this ⊢
          omega
    · simp only [Option.some.injEq, Prod.mk.injEq] at h
      rw [← h.2]

theorem parseNumber_spec (cs : List Char) :
    (∀ m, JSON.parseNumber cs ≠ .error (.RangeError m))
    ∧ (∀ v r, JSON.parseNumber cs = .ok (v, r) → r.length < cs.length) := by
  unfold JSON.parseNumber
  simp only
  have hs := parseSign_length cs
  have hd := takeDigits_length (JSON.parseSign cs).2
  split_ifs with hbad
  · simp [JSON.syntaxError]
  · have hne : (JSON.takeDigits (JSON.parseSign cs).2).1 ≠ [] := fun h => hbad (Or.inl h)
    have hpos : 0 < (JSON.takeDigits (JSON.parseSign cs).2).1.length :=
      List.length_pos.mpr hne
    cases hf : JSON.parseFraction (JSON.takeDigits (JSON.parseSign cs).2).2 with
    | none => simp [JSON.syntaxError]
    | some fr =>
      obtain ⟨fp, r1⟩ := fr
      have h1 := parseFraction_length _ _ _ hf
      cases he : JSON.parseExponent r1 with
      | none => simp [he, JSON.syntaxError]
      | some er =>
        obtain ⟨ex, r2⟩ := er
        have h2 := parseExponent_length _ _ _ he
        simp only [he, ne_eq, reduceCtorEq, not_false_eq_true, implies_true, Except.ok.injEq,
          Prod.mk.injEq, and_imp, true_and]
        intro v r _ hr
        rw [← hr]
        omega

theorem parse_fuel (f : Nat) :
    (∀ cs res, JSON.parseValue f cs = res →
      (∀ v r, res = .ok (v, r) → r.length < cs.length)
        ∧ (2 * cs.length + 1 ≤ f → ∀ m, res ≠ .error (.RangeError m)))
    ∧ (∀ cs acc res, JSON.parseElements f cs acc = res →
      (∀ v r, res = .ok (v, r) → r.length < cs.length)
        ∧ (2 * cs.length + 2 ≤ f → ∀ m, res ≠ .error (.RangeError m)))
    ∧ (∀ cs acc res, JSON.parseMembers f cs acc = res →
      (∀ v r, res = .ok (v, r) → r.length < cs.length)
        ∧ (2 * cs.length + 2 ≤ f → ∀ m, res ≠ .error (.RangeError m))) := by
  induction f with
  | zero =>
    refine ⟨?_, ?_, ?_⟩
    · intro cs res h
      subst h
      simp [JSON.parseValue]
    · intro cs acc res h
      subst h
      simp [JSON.parseElements]
    · intro cs acc res h
      subst h
      simp [JSON.parseMembers]
  | succ f ih =>
    obtain ⟨ihV, ihE, ihM⟩ := ih
    refine ⟨?_, ?_, ?_⟩
    · intro cs res hres
      have hws := skipWs_length_le cs
      unfold JSON.parseValue at hres
      cases hsk : JSON.skipWs cs with
      | nil =>
        simp only [hsk] at hres
        subst hres
        simp [JSON.syntaxError]
      | cons c rest =>
        rw [hsk] at hws
        simp only [List.length_cons] at hws
        simp only [hsk] at hres
        have hws2 := skipWs_length_le rest
        split_ifs at hres with h1 h2 h3
        · -- an object
          cases hsk2 : JSON.skipWs rest with
          | nil =>
            simp only [hsk2] at hres
            subst hres
            simp [JSON.syntaxError]
          | cons d rest1 =>
            rw [hsk2] at hws2
            simp only [List.length_cons] at hws2
            simp only [hsk2] at hres
            split_ifs at hres
            · subst hres
              simp only [Except.ok.injEq, Prod.mk.injEq, and_imp, ne_eq, reduceCtorEq,
                not_false_eq_true, implies_true, and_true]
              intro v r _ hr
              rw [← hr]
              omega
            · obtain ⟨i1, i2⟩ := ihM _ _ _ hres
              constructor
              · intro v r hvr
                have := i1 v r hvr
                simp only [List.length_cons] at this
                omega
              · intro hf
                apply i2
                simp only [List.length_cons]
                omega
        · -- an array
          cases hsk2 : JSON.skipWs rest with
          | nil =>
            simp only [hsk2] at hres
            subst hres
            simp [JSON.syntaxError]
          | cons d rest1 =>
            rw [hsk2] at hws2
            simp only [List.length_cons] at hws2
            simp only [hsk2] at hres
            split_ifs at hres
            · subst hres
              simp only [Except.ok.injEq, Prod.mk.injEq, and_imp, ne_eq, reduceCtorEq,
                not_false_eq_true, implies_true, and_true]
              intro v r _ hr
              rw [← hr]
              omega
            · obtain ⟨i1, i2⟩ := ihE _ _ _ hres
              constructor
              · intro v r hvr
                have := i1 v r hvr
                simp only [List.length_cons] at this
                omega
              · intro hf
                apply i2
                simp only [List.length_cons]
                omega
        · -- a string
          obtain ⟨s1, s2⟩ := parseString_spec rest []
          cases hps : JSON.parseString rest [] with
          | error e =>
            simp only [hps] at hres
            subst hres
            constructor
            · intro v r hvr
              cases hvr
            · intro _ m hm
              injection hm with hm
              exact s1 m (by rw [hps, hm])
          | ok sr =>
            obtain ⟨s, r0⟩ := sr
            simp only [hps] at hres
            subst hres
            have := s2 s r0 hps
            simp only [Except.ok.injEq, Prod.mk.injEq, and_imp, ne_eq, reduceCtorEq,
              not_false_eq_true, implies_true, and_true]
            intro v r _ hr
            rw [← hr]
            omega
        · -- a literal or a number
          cases ht : JSON.expect "true".toList (c :: rest) with
          | some r0 =>
            simp only [ht] at hres
            subst hres
            have := expect_length _ _ _ ht
            have hl : "true".toList.length = 4 := rfl
            rw [hl] at this
            simp only [List.length_cons] at this
            simp only [Except.ok.injEq, Prod.mk.injEq, and_imp, ne_eq, reduceCtorEq,
              not_false_eq_true, implies_true, and_true]
            intro v r _ hr
            rw [← hr]
            omega
          | none =>
            simp only [ht] at hres
            cases hfl : JSON.expect "false".toList (c :: rest) with
            | some r0 =>
              simp only [hfl] at hres
              subst hres
              have := expect_length _ _ _ hfl
              have hl : "false".toList.length = 5 := rfl
              rw [hl] at this
              simp only [List.length_cons] at this
              simp only [Except.ok.injEq, Prod.mk.injEq, and_imp, ne_eq, reduceCtorEq,
                not_false_eq_true, implies_true, and_true]
              intro v r _ hr
              rw [← hr]
              omega
            | none =>
              simp only [hfl] at hres
              cases hn : JSON.expect "null".toList (c :: rest) with
              | some r0 =>
                simp only [hn] at hres
                subst hres
                have := expect_length _ _ _ hn
                have hl : "null".toList.length = 4 := rfl
                rw [hl] at this
                simp only [List.length_cons] at this
                simp only [Except.ok.injEq, Prod.mk.injEq, and_imp, ne_eq, reduceCtorEq,
                  not_false_eq_true, implies_true, and_true]
                intro v r _ hr
                rw [← hr]
                omega
              | none =>
                simp only [hn] at hres
                obtain ⟨n1, n2⟩ := parseNumber_spec (c :: rest)
                subst hres
                constructor
                · intro v r hvr
                  have := n2 v r hvr
                  simp only [List.length_cons] at this
                  omega
                · intro _ m
                  exact n1 m
    · intro cs acc res hres
      unfold JSON.parseElements at hres
      cases hv : JSON.parseValue f cs with
      | error e =>
        simp only [hv] at hres
        subst hres
        constructor
        · intro v r hvr
          cases hvr
        · intro hf m hm
          injection hm with hm
          exact (ihV cs _ hv).2 (by omega) m (by rw [hm])
      | ok vr =>
        obtain ⟨v0, r0⟩ := vr
        simp only [hv] at hres
        have hlt := (ihV cs _ hv).1 v0 r0 rfl
        have hws := skipWs_length_le r0
        cases hsk : JSON.skipWs r0 with
        | nil =>
          simp only [hsk] at hres
          subst hres
          simp [JSON.syntaxError]
        | cons c r1 =>
          rw [hsk] at hws
          simp only [List.length_cons] at hws
          simp only [hsk] at hres
          split_ifs at hres
          · obtain ⟨i1, i2⟩ := ihE _ _ _ hres
            constructor
            · intro v r hvr
              have := i1 v r hvr
              omega
            · intro hf
              apply i2
              omega
          · subst hres
            simp only [Except.ok.injEq, Prod.mk.injEq, and_imp, ne_eq, reduceCtorEq,
              not_false_eq_true, implies_true, and_true]
            intro v r _ hr
            rw [← hr]
            omega
          · subst hres
            simp [JSON.syntaxError]
    · intro cs acc res hres
      unfold JSON.parseMembers at hres
      have hws := skipWs_length_le cs
      cases hsk : JSON.skipWs cs with
      | nil =>
        simp only [hsk] at hres
        subst hres
        simp [JSON.syntaxError]
      | cons q r =>
        rw [hsk] at hws
        simp only [List.length_cons] at hws
        simp only [hsk] at hres
        split_ifs at hres
        · obtain ⟨s1, s2⟩ := parseString_spec r []
          cases hps : JSON.parseString r [] with
          | error e =>
            simp only [hps] at hres
            subst hres
            constructor
            · intro v r hvr
              cases hvr
            · intro _ m hm
              injection hm with hm
              exact s1 m (by rw [hps, hm])
          | ok kr =>
            obtain ⟨k, r1⟩ := kr
            simp only [hps] at hres
            have hk := s2 k r1 hps
            have hws1 := skipWs_length_le r1
            cases hsk1 : JSON.skipWs r1 with
            | nil =>
              simp only [hsk1] at hres
              subst hres
              simp [JSON.syntaxError]
            | cons colon r2 =>
              rw [hsk1] at hws1
              simp only [List.length_cons] at hws1
              simp only [hsk1] at hres
              split_ifs at hres
              · cases hv : JSON.parseValue f r2 with
                | error e =>
                  simp only [hv] at hres
                  subst hres
                  constructor
                  · intro v r hvr
                    cases hvr
                  · intro hf m hm
                    injection hm with hm
                    exact (ihV r2 _ hv).2 (by omega) m (by rw [hm])
                | ok vr =>
                  obtain ⟨v0, r3⟩ := vr
                  simp only [hv] at hres
                  have hlt := (ihV r2 _ hv).1 v0 r3 rfl
                  have hws3 := skipWs_length_le r3
                  cases hsk3 : JSON.skipWs r3 with
                  | nil =>
                    simp only [hsk3] at hres
                    subst hres
                    simp [JSON.syntaxError]
                  | cons c r4 =>
                    rw [hsk3] at hws3
                    simp only [List.length_cons] at hws3
                    simp only [hsk3] at hres
                    split_ifs at hres
                    · obtain ⟨i1, i2⟩ := ihM _ _ _ hres
                      constructor
                      · intro v r hvr
                        have := i1 v r hvr
                        omega
                      · intro hf
                        apply i2
                        omega
                    · subst hres
                      simp only [Except.ok.injEq, Prod.mk.injEq, and_imp, ne_eq, reduceCtorEq,
                        not_false_eq_true, implies_true, and_true]
                      intro v r _ hr
                      rw [← hr]
                      omega
                    · subst hres
                      simp [JSON.syntaxError]
              · subst hres
                simp [JSON.syntaxError]
        · subst hres
          simp [JSON.syntaxError]

/-- `JSON.parse` never reaches its recursion bound: it does not return the
`RangeError`. -/
theorem JSON_parse_no_RangeError (text : String) (m : String) :
    JSON.parse text ≠ .error (.RangeError m) := by
  unfold JSON.parse
  have hlen : text.toList.length = text.length := rfl
  cases hv : JSON.parseValue (2 * text.length + 2) text.toList with
  | error e1 =>
    simp only
    intro h
    injection h with h
    exact ((parse_fuel _).1 text.toList _ hv).2 (by omega) m (by rw [h])
  | ok vr =>
    obtain ⟨v, rest⟩ := vr
    simp only
    cases JSON.skipWs rest with
    | nil => simp
    | cons c r => simp [JSON.syntaxError]

/-! ## Properties of the constructor -/

theorem lookupProp_updateProp_same (ps : List (JSString × JSValue)) (key : JSString)
    (val : JSValue) (h : hasProp ps key = true) :
    lookupProp (updateProp ps key val) key = val := by
  induction ps with
  | nil => simp [hasProp] at h
  | cons kv rest ih =>
    obtain ⟨k, v⟩ := kv
    by_cases hk : k = key
    · simp [updateProp, lookupProp, hk]
    · simp only [hasProp, hk, if_false] at h
      simp [updateProp, lookupProp, hk, ih h]

theorem lookupProp_insertProp_same (ps : List (JSString × JSValue)) (key : JSString)
    (val : JSValue) (h : hasProp ps key = false) :
    lookupProp (insertProp ps key val) key = val := by
  induction ps with
  | nil => simp [insertProp, lookupProp]
  | cons kv rest ih =>
    obtain ⟨k, v⟩ := kv
    by_cases hk : k = key
    · simp [hasProp, hk] at h
    · simp only [hasProp, hk, if_false] at h
      simp only [insertProp]
      split_ifs
      · simp [lookupProp]
      · simp [lookupProp, hk, ih h]

theorem lookupProp_assignProp_same (ps : List (JSString × JSValue)) (key : JSString)
    (val : JSValue) :
    lookupProp (assignProp ps key val) key = val := by
  unfold assignProp
  cases h : hasProp ps key
  · simpa using lookupProp_insertProp_same ps key val h
  · simpa using lookupProp_updateProp_same ps key val h

theorem lookupProp_updateProp_other (ps : List (JSString × JSValue)) (key other : JSString)
    (val : JSValue) (hne : key ≠ other) :
    lookupProp (updateProp ps key val) other = lookupProp ps other := by
  induction ps with
  | nil => simp [updateProp]
  | cons kv rest ih =>
    obtain ⟨k, v⟩ := kv
    by_cases hk : k = key
    · subst hk
      simp [updateProp, lookupProp, hne]
    · by_cases ho : k = other
      · subst ho
        simp [updateProp, lookupProp, hk]
      · simp [updateProp, lookupProp, hk, ho, ih]

theorem lookupProp_insertProp_other (ps : List (JSString × JSValue)) (key other : JSString)
    (val : JSValue) (hne : key ≠ other) :
    lookupProp (insertProp ps key val) other = lookupProp ps other := by
  induction ps with
  | nil => simp [insertProp, lookupProp, hne]
  | cons kv rest ih =>
    obtain ⟨k, v⟩ := kv
    simp only [insertProp]
    split_ifs
    · simp [lookupProp, hne]
    · by_cases ho : k = other
      · simp [lookupProp, ho]
      · simp [lookupProp, ho, ih]

theorem lookupProp_assignProp_other (ps : List (JSString × JSValue)) (key other : JSString)
    (val : JSValue) (hne : key ≠ other) :
    lookupProp (assignProp ps key val) other = lookupProp ps other := by
  unfold assignProp
  cases h : hasProp ps key
  · simpa using lookupProp_insertProp_other ps key other val hne
  · simpa using lookupProp_updateProp_other ps key other val hne

theorem strictEqString_eq_true (v : JSValue) (lit : String) :
    strictEqString v lit = true ↔ v = .string lit := by
  cases v <;> simp [strictEqString]

theorem strictEqString_eq_false (v : JSValue) (lit : String) :
    strictEqString v lit = false ↔ v ≠ .string lit := by
  cases v <;> simp [strictEqString]

theorem string_ne (a b : JSString) (h : a ≠ b) : JSValue.string a ≠ JSValue.string b :=
  fun e => h (JSValue.string.inj e)

/-- The constructor on a plain object, as one decision list. -/
theorem Redmine_object (host : JSValue) (ps : List (JSString × JSValue)) :
    Redmine host (.object ps) =
      if truthy host = false then .error (.Error "Invalidate hostname !")
      else if typeof host ≠ "string" then .error (.Error "hostname should be a String !")
      else if (truthy (lookupProp ps "apiKey")
          || (truthy (lookupProp ps "username") && truthy (lookupProp ps "password"))) = false then
        .error (.Error "You should provide an API key or username & password !")
      else if (truthy (lookupProp ps "format") && !strictEqString (lookupProp ps "format") "json"
          && !strictEqString (lookupProp ps "format") "xml") = true then
        .error (.Error "Redmine REST API only supports json and xml !")
      else .ok ⟨.object (
        if truthy (lookupProp (assignProp ps "host" host) "format") then assignProp ps "host" host
        else assignProp (assignProp ps "host" host) "format" (.string "json"))⟩ := by
  unfold Redmine
  simp only [getProp, setProp, prop, bind, Except.bind, pure, Except.pure, throw, throwThe,
    MonadExceptOf.throw]
  generalize truthy host = a
  generalize typeof host = t
  generalize truthy (lookupProp ps (JSString.ofString "apiKey")) = b
  generalize truthy (lookupProp ps (JSString.ofString "username")) = c
  generalize truthy (lookupProp ps (JSString.ofString "password")) = d
  generalize truthy (lookupProp ps (JSString.ofString "format")) = f
  generalize strictEqString (lookupProp ps (JSString.ofString "format")) "json" = g
  generalize strictEqString (lookupProp ps (JSString.ofString "format")) "xml" = h
  generalize truthy (lookupProp (assignProp ps (JSString.ofString "host") host)
    (JSString.ofString "format")) = k
  by_cases ht : t = "string" <;>
    cases a <;> cases b <;> cases c <;> cases d <;> cases f <;> cases g <;> cases h <;>
      cases k <;> simp [ht]

/-- A `config` that is not a plain object has none of the credentials, and the
constructor throws on it. -/
theorem Redmine_not_object (host config : JSValue) (hc : ∀ ps, config ≠ .object ps) :
    ∃ e, Redmine host config = .error e := by
  unfold Redmine
  simp only [getProp, setProp, prop, bind, Except.bind, pure, Except.pure, throw, throwThe,
    MonadExceptOf.throw]
  generalize truthy host = a
  generalize typeof host = t
  by_cases ht : t = "string" <;> cases a <;> cases config <;>
    simp [ht, truthy, lookupProp] at hc ⊢

/-- The host the constructor accepts is a non-empty string. -/
theorem host_string_of_checks (host : JSValue) (h1 : truthy host ≠ false)
    (h2 : ¬ typeof host ≠ "string") : ∃ hs, host = .string hs ∧ hs ≠ "" := by
  cases host with
  | string s =>
    refine ⟨s, rfl, ?_⟩
    intro hs
    apply h1
    subst hs
    rfl
  | _ => simp [typeof] at h2

/-- C8: for every host and every config that has neither a truthy `apiKey` nor
both a truthy `username` and a truthy `password`, the constructor throws and
yields no client. -/
theorem Redmine_requires_credentials (host config : JSValue)
    (h : ¬ (truthy (prop config "apiKey") = true
      ∨ (truthy (prop config "username") = true ∧ truthy (prop config "password") = true))) :
    (∃ e, Redmine host config = .error e) ∧ ∀ client, Redmine host config ≠ .ok client := by
  have key : ∃ e, Redmine host config = .error e := by
    by_cases hc : ∃ ps, config = .object ps
    · obtain ⟨ps, rfl⟩ := hc
      rw [Redmine_object]
      simp only [prop] at h
      split_ifs with h1 h2 h3 h4
      · exact ⟨_, rfl⟩
      · exact ⟨_, rfl⟩
      · exact ⟨_, rfl⟩
      · exact ⟨_, rfl⟩
      · exfalso
        apply h
        cases hb : truthy (lookupProp ps "apiKey") <;>
          cases hu : truthy (lookupProp ps "username") <;>
            cases hp : truthy (lookupProp ps "password") <;> simp [hb, hu, hp] at h3 ⊢
    · exact Redmine_not_object host config (fun ps hps => hc ⟨ps, hps⟩)
  refine ⟨key, ?_⟩
  obtain ⟨e, he⟩ := key
  intro client hcl
  rw [he] at hcl
  cases hcl

/-- C8, on a config that gives only a username. -/
theorem Redmine_requires_credentials_witness :
    ¬ (truthy (prop usernameOnlyConfig "apiKey") = true
      ∨ (truthy (prop usernameOnlyConfig "username") = true
        ∧ truthy (prop usernameOnlyConfig "password") = true))
    ∧ ((∃ e, Redmine sampleHost usernameOnlyConfig = .error e)
      ∧ ∀ client, Redmine sampleHost usernameOnlyConfig ≠ .ok client) :=
  ⟨by decide,
    Redmine_requires_credentials sampleHost usernameOnlyConfig
      (by decide)⟩

/-- C6, as stated, fails: a config whose format is the empty string, with a
valid host and valid credentials, is accepted, and the client gets the format
`json`. -/
theorem Redmine_accepts_empty_format :
    prop (.object [("username", .string "admin"), ("password", .string "secret"),
        ("format", .string "")]) "format" = .string ""
    ∧ Redmine (.string "redmine.example.org")
        (.object [("username", .string "admin"), ("password", .string "secret"),
          ("format", .string "")])
      = .ok ⟨.object [("username", .string "admin"), ("password", .string "secret"),
          ("format", .string "json"), ("host", .string "redmine.example.org")]⟩ :=
  ⟨rfl, rfl⟩

/-- C6 (amended): for every config whose format is truthy and is not one of the
two literals `json` and `xml`, the constructor throws; with a valid host and valid
credentials the error is the one about the format. -/
theorem Redmine_rejects_truthy_unsupported_format (host config : JSValue)
    (hf : truthy (prop config "format") = true)
    (hj : prop config "format" ≠ .string "json") (hx : prop config "format" ≠ .string "xml") :
    (∃ e, Redmine host config = .error e)
    ∧ (truthy host = true → typeof host = "string" →
        (truthy (prop config "apiKey") = true
          ∨ (truthy (prop config "username") = true ∧ truthy (prop config "password") = true)) →
        Redmine host config
          = .error (.Error "Redmine REST API only supports json and xml !")) := by
  cases config with
  | object ps =>
    simp only [prop] at hf hj hx ⊢
    have hj1 := (strictEqString_eq_false _ _).mpr hj
    have hx1 := (strictEqString_eq_false _ _).mpr hx
    rw [Redmine_object]
    constructor
    · split_ifs with h1 h2 h3 h4
      · exact ⟨_, rfl⟩
      · exact ⟨_, rfl⟩
      · exact ⟨_, rfl⟩
      · exact ⟨_, rfl⟩
      · simp [hf, hj1, hx1] at h4
    · intro ht hs hcred
      have h3 : (truthy (lookupProp ps "apiKey")
          || (truthy (lookupProp ps "username") && truthy (lookupProp ps "password"))) = true := by
        rcases hcred with hk | ⟨hu, hp⟩
        · simp [hk]
        · simp [hu, hp]
      simp [ht, hs, h3, hf, hj1, hx1]
  | _ => simp [prop, truthy] at hf

/-- C6 (amended), on the format `yaml`. -/
theorem Redmine_rejects_truthy_unsupported_format_witness :
    (truthy (prop yamlConfig "format") = true ∧ prop yamlConfig "format" ≠ .string "json"
      ∧ prop yamlConfig "format" ≠ .string "xml")
    ∧ (truthy sampleHost = true ∧ typeof sampleHost = "string"
      ∧ truthy (prop yamlConfig "apiKey") = true)
    ∧ Redmine sampleHost yamlConfig
      = .error (.Error "Redmine REST API only supports json and xml !") :=
  ⟨⟨rfl, string_ne _ _ (by decide), string_ne _ _ (by decide)⟩,
    ⟨rfl, rfl, rfl⟩,
    (Redmine_rejects_truthy_unsupported_format sampleHost yamlConfig rfl
      (string_ne _ _ (by decide)) (string_ne _ _ (by decide))).2
      rfl rfl (Or.inl rfl)⟩

/-- C10, as stated, fails: the config specifies the format `''`, construction
succeeds, and the format of the client is `json`, not the specified value. -/
theorem Redmine_replaces_empty_format :
    Redmine (.string "tracker.local") (.object [("apiKey", .string "s3cr3t"), ("format", .string "")])
      = .ok ⟨.object [("apiKey", .string "s3cr3t"), ("format", .string "json"),
          ("host", .string "tracker.local")]⟩
    ∧ prop (.object [("apiKey", .string "s3cr3t"), ("format", .string "")]) "format"
      = .string ""
    ∧ prop (.object [("apiKey", .string "s3cr3t"), ("format", .string "json"),
          ("host", .string "tracker.local")]) "format"
      ≠ prop (.object [("apiKey", .string "s3cr3t"), ("format", .string "")]) "format" := by
  refine ⟨rfl, rfl, ?_⟩
  exact string_ne _ _ (by decide)

/-- C10 (amended): every client the constructor returns has `config.host` equal
to the given host, a non-empty string; has a truthy `apiKey` or a truthy
`username` and a truthy `password`; and has `config.format` one of `json` and
`xml`, namely the given format when that is truthy and `json` when the given
format is absent or falsy. -/
theorem Redmine_config_invariant (host config : JSValue) (client : Client)
    (h : Redmine host config = .ok client) :
    (∃ hs, host = .string hs ∧ hs ≠ "")
    ∧ prop client.config "host" = host
    ∧ (truthy (prop client.config "apiKey") = true
        ∨ (truthy (prop client.config "username") = true
          ∧ truthy (prop client.config "password") = true))
    ∧ (prop client.config "format" = .string "json"
        ∨ prop client.config "format" = .string "xml")
    ∧ prop client.config "format"
        = (if truthy (prop config "format") = true then prop config "format"
           else .string "json") := by
  by_cases hc : ∃ ps, config = .object ps
  · obtain ⟨ps, rfl⟩ := hc
    rw [Redmine_object] at h
    by_cases h1 : truthy host = false
    · rw [if_pos h1] at h
      cases h
    rw [if_neg h1] at h
    by_cases h2 : typeof host ≠ "string"
    · rw [if_pos h2] at h
      cases h
    rw [if_neg h2] at h
    by_cases h3 : (truthy (lookupProp ps "apiKey")
        || (truthy (lookupProp ps "username") && truthy (lookupProp ps "password"))) = false
    · rw [if_pos h3] at h
      cases h
    rw [if_neg h3] at h
    by_cases h4 : (truthy (lookupProp ps "format") && !strictEqString (lookupProp ps "format") "json"
        && !strictEqString (lookupProp ps "format") "xml") = true
    · rw [if_pos h4] at h
      cases h
    rw [if_neg h4] at h
    have hcl : client = ⟨.object (
        if truthy (lookupProp (assignProp ps "host" host) "format") then assignProp ps "host" host
        else assignProp (assignProp ps "host" host) "format" (.string "json"))⟩ := by
      injection h with h'
      exact h'.symm
    have hfmt : lookupProp (assignProp ps "host" host) "format" = lookupProp ps "format" :=
      lookupProp_assignProp_other ps "host" "format" host (by decide)
    have hcred : truthy (lookupProp ps "apiKey") = true
        ∨ (truthy (lookupProp ps "username") = true
          ∧ truthy (lookupProp ps "password") = true) := by
      cases hb : truthy (lookupProp ps "apiKey") <;>
        cases hu : truthy (lookupProp ps "username") <;>
          cases hp : truthy (lookupProp ps "password") <;> simp [hb, hu, hp] at h3 ⊢
    subst hcl
    simp only [prop, hfmt]
    refine ⟨host_string_of_checks host h1 h2, ?_, ?_, ?_, ?_⟩
    · split_ifs
      · exact lookupProp_assignProp_same ps "host" host
      · rw [lookupProp_assignProp_other _ "format" "host" _ (by decide)]
        exact lookupProp_assignProp_same ps "host" host
    · split_ifs
      · rw [lookupProp_assignProp_other _ "host" "apiKey" _ (by decide),
          lookupProp_assignProp_other _ "host" "username" _ (by decide),
          lookupProp_assignProp_other _ "host" "password" _ (by decide)]
        exact hcred
      · rw [lookupProp_assignProp_other _ "format" "apiKey" _ (by decide),
          lookupProp_assignProp_other _ "format" "username" _ (by decide),
          lookupProp_assignProp_other _ "format" "password" _ (by decide),
          lookupProp_assignProp_other _ "host" "apiKey" _ (by decide),
          lookupProp_assignProp_other _ "host" "username" _ (by decide),
          lookupProp_assignProp_other _ "host" "password" _ (by decide)]
        exact hcred
    · split_ifs with hf
      · rw [hfmt]
        cases hg : strictEqString (lookupProp ps "format") "json"
        · cases hx : strictEqString (lookupProp ps "format") "xml"
          · simp [hf, hg, hx] at h4
          · exact Or.inr ((strictEqString_eq_true _ _).mp hx)
        · exact Or.inl ((strictEqString_eq_true _ _).mp hg)
      · exact Or.inl (lookupProp_assignProp_same _ "format" _)
    · split_ifs with hf
      · exact hfmt
      · exact lookupProp_assignProp_same _ "format" _
  · obtain ⟨e, he⟩ := Redmine_not_object host config (fun ps hps => hc ⟨ps, hps⟩)
    rw [he] at h
    cases h

/-- C10 (amended), on a config that gives an API key and the format `xml`. -/
theorem Redmine_config_invariant_witness :
    Redmine sampleHost xmlConfig = .ok xmlClient
    ∧ prop xmlClient.config "host" = sampleHost
    ∧ prop xmlClient.config "format"
      = (if truthy (prop xmlConfig "format") = true then prop xmlConfig "format"
         else .string "json") :=
  ⟨rfl, (Redmine_config_invariant sampleHost xmlConfig xmlClient rfl).2.1,
    (Redmine_config_invariant sampleHost xmlConfig xmlClient rfl).2.2.2.2⟩

/-! ## Properties of `querystring.stringify` and `encodeURL` -/

theorem scalarValues_cons (u : Nat) (rest : List Nat) :
    scalarValues (u :: rest)
      = if u < 55296 ∨ (57344 ≤ u ∧ u < 65536) then
          match scalarValues rest with
          | some cs => some (u :: cs)
          | none => none
        else if 55296 ≤ u ∧ u < 56320 then
          match rest with
          | [] => none
          | v :: rest1 =>
            if 56320 ≤ v ∧ v < 57344 then
              match scalarValues rest1 with
              | some cs => some ((65536 + (u - 55296) * 1024 + (v - 56320)) :: cs)
              | none => none
            else none
        else none := by
  cases rest <;> rfl

theorem encodeStr_cons (c : Nat) (rest : List Nat) :
    querystring.encodeStr (c :: rest)
      = if c < 128 then
          match querystring.encodeStr rest with
          | .ok out => .ok ((if unreserved c then [Char.ofNat c] else percentByte c) ++ out)
          | .error e => .error e
        else if c < 2048 then
          match querystring.encodeStr rest with
          | .ok out => .ok (percentByte (192 + c / 64) ++ percentByte (128 + c % 64) ++ out)
          | .error e => .error e
        else if c < 55296 ∨ 57344 ≤ c then
          match querystring.encodeStr rest with
          | .ok out =>
            .ok (percentByte (224 + c / 4096) ++ percentByte (128 + c / 64 % 64)
              ++ percentByte (128 + c % 64) ++ out)
          | .error e => .error e
        else
          match rest with
          | [] => .error (Thrown.URIError "URI malformed")
          | c2 :: rest1 =>
            match querystring.encodeStr rest1 with
            | .ok out =>
              .ok (percentByte (240 + (65536 + (c % 1024) * 1024 + c2 % 1024) / 262144)
                ++ percentByte (128 + (65536 + (c % 1024) * 1024 + c2 % 1024) / 4096 % 64)
                ++ percentByte (128 + (65536 + (c % 1024) * 1024 + c2 % 1024) / 64 % 64)
                ++ percentByte (128 + (65536 + (c % 1024) * 1024 + c2 % 1024) % 64) ++ out)
            | .error e => .error e := by
  cases rest <;> rfl

theorem percentEncodeScalars_cons (n : Nat) (cs : List Nat) :
    percentEncodeScalars (n :: cs)
      = (if n < 128 ∧ unreserved n = true then [Char.ofNat n]
          else (utf8OfScalar n).flatMap percentByte) ++ percentEncodeScalars cs := by
  simp [percentEncodeScalars]

/-- On a well-formed string `encodeStr` does not fail and is the percent-encoding
of the text. -/
theorem encodeStr_of_scalarValues (n : Nat) :
    ∀ (units cs : List Nat), units.length ≤ n → scalarValues units = some cs →
      querystring.encodeStr units = .ok (percentEncodeScalars cs) := by
  induction n with
  | zero =>
    intro units cs hlen h
    have hu : units = [] := List.length_eq_zero.mp (Nat.le_zero.mp hlen)
    subst hu
    simp only [scalarValues, Option.some.injEq] at h
    subst h
    rfl
  | succ n ih =>
    intro units cs hlen h
    cases units with
    | nil =>
      simp only [scalarValues, Option.some.injEq] at h
      subst h
      rfl
    | cons u rest =>
      simp only [List.length_cons] at hlen
      rw [scalarValues_cons] at h
      by_cases h1 : u < 55296 ∨ (57344 ≤ u ∧ u < 65536)
      · rw [if_pos h1] at h
        cases hs : scalarValues rest with
        | none => simp [hs] at h
        | some cs1 =>
          simp only [hs, Option.some.injEq] at h
          subst h
          have ihr := ih rest cs1 (by omega) hs
          rw [percentEncodeScalars_cons]
          rw [encodeStr_cons, ihr]
          by_cases ha : u < 128
          · simp [ha, utf8OfScalar]
          · by_cases hb : u < 2048
            · simp [ha, hb, utf8OfScalar]
            · have hc : u < 55296 ∨ 57344 ≤ u := by omega
              have hd : u < 65536 := by omega
              simp [ha, hb, hc, hd, utf8OfScalar]
      · rw [if_neg h1] at h
        by_cases h2 : 55296 ≤ u ∧ u < 56320
        · rw [if_pos h2] at h
          cases rest with
          | nil => simp at h
          | cons v rest1 =>
            simp only at h
            by_cases h3 : 56320 ≤ v ∧ v < 57344
            · rw [if_pos h3] at h
              cases hs : scalarValues rest1 with
              | none => simp [hs] at h
              | some cs1 =>
                simp only [hs, Option.some.injEq] at h
                subst h
                simp only [List.length_cons] at hlen
                have ihr := ih rest1 cs1 (by omega) hs
                have hcp : 65536 + u % 1024 * 1024 + v % 1024
                    = 65536 + (u - 55296) * 1024 + (v - 56320) := by omega
                rw [percentEncodeScalars_cons]
                rw [encodeStr_cons]
                have ha : ¬ u < 128 := by omega
                have hb : ¬ u < 2048 := by omega
                have hc : ¬ (u < 55296 ∨ 57344 ≤ u) := by omega
                have he : ¬ (65536 + (u - 55296) * 1024 + (v - 56320) < 128) := by omega
                have hf : ¬ (65536 + (u - 55296) * 1024 + (v - 56320) < 2048) := by omega
                have hg : ¬ (65536 + (u - 55296) * 1024 + (v - 56320) < 65536) := by omega
                simp only [ha, hb, hc, if_false, ihr, hcp]
                simp [utf8OfScalar, he, hf, hg]
            · rw [if_neg h3] at h
              cases h
        · rw [if_neg h2] at h
          cases h

theorem char_toNat_valid (c : Char) :
    c.toNat < 55296 ∨ (57343 < c.toNat ∧ c.toNat < 1114112) :=
  c.valid

/-- The code units of a text are well-formed and encode its characters. -/
theorem scalarValues_codeUnits (l : List Char) :
    scalarValues (l.flatMap utf16Units) = some (l.map Char.toNat) := by
  induction l with
  | nil => rfl
  | cons c cs ih =>
    simp only [List.flatMap_cons, List.map_cons]
    have hv := char_toNat_valid c
    have hu : utf16Units c = if c.toNat < 65536 then [c.toNat]
        else [55296 + (c.toNat - 65536) / 1024, 56320 + (c.toNat - 65536) % 1024] := rfl
    rw [hu]
    by_cases hc : c.toNat < 65536
    · rw [if_pos hc, List.singleton_append, scalarValues_cons]
      have h1 : c.toNat < 55296 ∨ (57344 ≤ c.toNat ∧ c.toNat < 65536) := by omega
      rw [if_pos h1, ih]
    · rw [if_neg hc, List.cons_append, List.cons_append, List.nil_append, scalarValues_cons]
      have h1 : ¬ (55296 + (c.toNat - 65536) / 1024 < 55296
          ∨ (57344 ≤ 55296 + (c.toNat - 65536) / 1024
            ∧ 55296 + (c.toNat - 65536) / 1024 < 65536)) := by omega
      have h2 : 55296 ≤ 55296 + (c.toNat - 65536) / 1024
          ∧ 55296 + (c.toNat - 65536) / 1024 < 56320 := by omega
      have h3 : 56320 ≤ 56320 + (c.toNat - 65536) % 1024
          ∧ 56320 + (c.toNat - 65536) % 1024 < 57344 := by omega
      rw [if_neg h1, if_pos h2]
      dsimp only
      rw [if_pos h3, ih]
      have h4 : 65536 + (55296 + (c.toNat - 65536) / 1024 - 55296) * 1024
          + (56320 + (c.toNat - 65536) % 1024 - 56320) = c.toNat := by omega
      simp only [h4]

/-- `querystring.escape` on a well-formed string is its percent-encoding. -/
theorem escape_of_percentEncode (s : JSString) (t : String) (h : percentEncode s = some t) :
    querystring.escape s = .ok t := by
  unfold percentEncode at h
  cases hs : scalarValues s.units with
  | none => simp [hs] at h
  | some cs =>
    simp only [hs, Option.some.injEq] at h
    subst h
    unfold querystring.escape
    rw [encodeStr_of_scalarValues _ s.units cs (Nat.le_refl _) hs]

/-- `encodeStringified` gives the percent-encoded text of a parameter value. -/
theorem encodeStringified_of_paramText (v : JSValue) (t : String) (h : paramText v = some t) :
    querystring.encodeStringified v = .ok t := by
  cases v with
  | string s => exact escape_of_percentEncode s t h
  | number n =>
    cases n with
    | finite neg m e =>
      simp only [paramText] at h
      simp only [querystring.encodeStringified]
      split_ifs at h ⊢
      · simp only [Option.some.injEq] at h
        rw [h]
      · simp only [Option.some.injEq] at h
        subst h
        unfold querystring.escape JSString.ofString codeUnits
        rw [encodeStr_of_scalarValues _ _ _ (Nat.le_refl _) (scalarValues_codeUnits _)]
    | nan =>
      simp only [paramText, Option.some.injEq] at h
      subst h
      rfl
    | infinity neg =>
      simp only [paramText, Option.some.injEq] at h
      subst h
      rfl
  | boolean b =>
    simp only [paramText, Option.some.injEq] at h
    subst h
    rfl
  | undefined =>
    simp only [paramText, Option.some.injEq] at h
    subst h
    rfl
  | null =>
    simp only [paramText, Option.some.injEq] at h
    subst h
    rfl
  | array xs =>
    simp only [paramText, Option.some.injEq] at h
    subst h
    rfl
  | object ps =>
    simp only [paramText, Option.some.injEq] at h
    subst h
    rfl

theorem string_append_ne_empty_right (a b : String) (h : b ≠ "") : a ++ b ≠ "" := by
  intro hab
  apply h
  have hd := congrArg String.data hab
  rw [String.data_append] at hd
  apply String.ext
  exact (List.append_eq_nil.mp hd).2

theorem string_append_ne_empty_left (a b : String) (h : a ≠ "") : a ++ b ≠ "" := by
  intro hab
  apply h
  have hd := congrArg String.data hab
  rw [String.data_append] at hd
  apply String.ext
  exact (List.append_eq_nil.mp hd).1

theorem paramTexts_cons (x : JSValue) (xs : List JSValue) (ts : List String)
    (h : paramTexts (x :: xs) = some ts) :
    ∃ t ts1, paramText x = some t ∧ paramTexts xs = some ts1 ∧ ts = t :: ts1 := by
  simp only [paramTexts] at h
  cases h1 : paramText x with
  | none => simp [h1] at h
  | some t =>
    cases h2 : paramTexts xs with
    | none => simp [h1, h2] at h
    | some ts1 =>
      simp only [h1, h2, Option.some.injEq] at h
      exact ⟨t, ts1, rfl, rfl, h.symm⟩

/-- The loop over the elements after the first one. -/
theorem addElements_of_paramTexts (ks : String) :
    ∀ (vs : List JSValue) (ts : List String) (acc : String), paramTexts vs = some ts →
      querystring.addElements ks vs false acc
        = .ok (ts.foldl (fun a t => a ++ "&" ++ (ks ++ t)) acc) := by
  intro vs
  induction vs with
  | nil =>
    intro ts acc h
    simp only [paramTexts, Option.some.injEq] at h
    subst h
    rfl
  | cons x xs ih =>
    intro ts acc h
    obtain ⟨t, ts1, h1, h2, h3⟩ := paramTexts_cons x xs ts h
    subst h3
    simp only [querystring.addElements, encodeStringified_of_paramText x t h1, List.foldl_cons]
    rw [ih ts1 _ h2]
    simp [String.append_assoc]

theorem foldl_appendEntry_of_ne (es : List String) :
    ∀ acc : String, acc ≠ "" →
      es.foldl appendEntry acc = es.foldl (fun a e => a ++ "&" ++ e) acc := by
  induction es with
  | nil => intro acc _; rfl
  | cons e es ih =>
    intro acc h
    simp only [List.foldl_cons]
    have h1 : appendEntry acc e = acc ++ "&" ++ e := by
      unfold appendEntry
      rw [if_pos h]
    rw [h1]
    exact ih _ (string_append_ne_empty_left _ _ (string_append_ne_empty_left _ _ h))

theorem appendEntry_ne (fields entry : String) (h : entry ≠ "") :
    appendEntry fields entry ≠ "" :=
  string_append_ne_empty_right _ _ h

theorem key_ne_empty (k : String) : k ++ "=" ≠ "" :=
  string_append_ne_empty_right _ _ (by decide)

theorem entry_ne_empty (k t : String) : k ++ "=" ++ t ≠ "" :=
  string_append_ne_empty_left _ _ (key_ne_empty k)

/-- The body of the loop over the keys adds the entries of the parameter. -/
theorem addValue_of_formEntries (k : JSString) (v : JSValue) (ks : String) (es : List String)
    (fields : String) (hk : percentEncode k = some ks) (h : formEntries (k, v) = some es) :
    querystring.addValue (ks ++ "=") fields v = .ok (es.foldl appendEntry fields) := by
  simp only [formEntries, hk] at h
  cases v with
  | array vs =>
    simp only at h
    cases hts : paramTexts vs with
    | none => simp [hts] at h
    | some ts =>
      simp only [hts, Option.some.injEq] at h
      subst h
      cases vs with
      | nil =>
        simp only [paramTexts, Option.some.injEq] at hts
        subst hts
        rfl
      | cons x xs =>
        obtain ⟨t, ts1, h1, h2, h3⟩ := paramTexts_cons x xs ts hts
        subst h3
        simp only [querystring.addValue, querystring.addElements,
          encodeStringified_of_paramText x t h1, List.map_cons, List.foldl_cons]
        rw [addElements_of_paramTexts _ xs ts1 _ h2]
        have h4 : appendEntry fields (ks ++ "=" ++ t)
            = (if fields ≠ "" then fields ++ "&" else fields) ++ (ks ++ "=") ++ t := by
          unfold appendEntry
          simp [String.append_assoc]
        rw [foldl_appendEntry_of_ne _ _ (appendEntry_ne _ _ (entry_ne_empty ks t)), h4,
          List.foldl_map]
        simp
  | string s =>
    simp only at h
    cases ht : paramText (.string s) with
    | none => simp [ht] at h
    | some t =>
      simp only [ht, Option.some.injEq] at h
      subst h
      simp only [querystring.addValue, encodeStringified_of_paramText _ t ht, List.foldl_cons,
        List.foldl_nil, appendEntry, String.append_assoc]
  | number n =>
    simp only at h
    cases ht : paramText (.number n) with
    | none => simp [ht] at h
    | some t =>
      simp only [ht, Option.some.injEq] at h
      subst h
      simp only [querystring.addValue, encodeStringified_of_paramText _ t ht, List.foldl_cons,
        List.foldl_nil, appendEntry, String.append_assoc]
  | boolean b =>
    simp only at h
    cases ht : paramText (.boolean b) with
    | none => simp [ht] at h
    | some t =>
      simp only [ht, Option.some.injEq] at h
      subst h
      simp only [querystring.addValue, encodeStringified_of_paramText _ t ht, List.foldl_cons,
        List.foldl_nil, appendEntry, String.append_assoc]
  | undefined =>
    simp only at h
    cases ht : paramText .undefined with
    | none => simp [ht] at h
    | some t =>
      simp only [ht, Option.some.injEq] at h
      subst h
      simp only [querystring.addValue, encodeStringified_of_paramText _ t ht, List.foldl_cons,
        List.foldl_nil, appendEntry, String.append_assoc]
  | null =>
    simp only at h
    cases ht : paramText .null with
    | none => simp [ht] at h
    | some t =>
      simp only [ht, Option.some.injEq] at h
      subst h
      simp only [querystring.addValue, encodeStringified_of_paramText _ t ht, List.foldl_cons,
        List.foldl_nil, appendEntry, String.append_assoc]
  | object ps =>
    simp only at h
    cases ht : paramText (.object ps) with
    | none => simp [ht] at h
    | some t =>
      simp only [ht, Option.some.injEq] at h
      subst h
      simp only [querystring.addValue, encodeStringified_of_paramText _ t ht, List.foldl_cons,
        List.foldl_nil, appendEntry, String.append_assoc]

/-- Every entry of a parameter has the `=` in it. -/
theorem formEntries_ne_empty (kv : JSString × JSValue) (es : List String)
    (h : formEntries kv = some es) : ∀ e ∈ es, e ≠ "" := by
  unfold formEntries at h
  cases hk : percentEncode kv.1 with
  | none => simp [hk] at h
  | some k =>
    simp only [hk] at h
    split at h
    · split at h
      · simp only [Option.some.injEq] at h
        subst h
        intro e he
        simp only [List.mem_map] at he
        obtain ⟨t, _, rfl⟩ := he
        exact entry_ne_empty k t
      · cases h
    · split at h
      · simp only [Option.some.injEq] at h
        subst h
        intro e he
        simp only [List.mem_singleton] at he
        subst he
        exact entry_ne_empty k _
      · cases h

theorem formEntriesOf_cons (kv : JSString × JSValue) (rest : List (JSString × JSValue))
    (es : List String) (h : formEntriesOf (kv :: rest) = some es) :
    ∃ es1 more, formEntries kv = some es1 ∧ formEntriesOf rest = some more
      ∧ es = es1 ++ more := by
  simp only [formEntriesOf] at h
  cases h1 : formEntries kv with
  | none => simp [h1] at h
  | some es1 =>
    cases h2 : formEntriesOf rest with
    | none => simp [h1, h2] at h
    | some more =>
      simp only [h1, h2, Option.some.injEq] at h
      exact ⟨es1, more, rfl, rfl, h.symm⟩

theorem formEntriesOf_ne_empty :
    ∀ (ps : List (JSString × JSValue)) (es : List String),
      formEntriesOf ps = some es → ∀ e ∈ es, e ≠ "" := by
  intro ps
  induction ps with
  | nil =>
    intro es h
    simp only [formEntriesOf, Option.some.injEq] at h
    subst h
    intro e he
    cases he
  | cons kv rest ih =>
    intro es h
    obtain ⟨es1, more, h1, h2, h3⟩ := formEntriesOf_cons kv rest es h
    subst h3
    intro e he
    rcases List.mem_append.mp he with he | he
    · exact formEntries_ne_empty kv es1 h1 e he
    · exact ih more h2 e he

/-- The loop over the keys adds the entries of all the parameters. -/
theorem addProps_of_formEntriesOf :
    ∀ (ps : List (JSString × JSValue)) (es : List String) (fields : String),
      formEntriesOf ps = some es →
      querystring.addProps ps fields = .ok (es.foldl appendEntry fields) := by
  intro ps
  induction ps with
  | nil =>
    intro es fields h
    simp only [formEntriesOf, Option.some.injEq] at h
    subst h
    rfl
  | cons kv rest ih =>
    intro es fields h
    obtain ⟨es1, more, h1, h2, h3⟩ := formEntriesOf_cons kv rest es h
    subst h3
    obtain ⟨k, v⟩ := kv
    cases hk : percentEncode k with
    | none => simp [formEntries, hk] at h1
    | some ks =>
      simp only [querystring.addProps, escape_of_percentEncode k ks hk,
        addValue_of_formEntries k v ks es1 fields hk h1, List.foldl_append]
      exact ih more _ h2

theorem intercalate_go_eq_foldl (es : List String) :
    ∀ acc : String,
      String.intercalate.go acc "&" es = es.foldl (fun a e => a ++ "&" ++ e) acc := by
  induction es with
  | nil => intro acc; rfl
  | cons e es ih =>
    intro acc
    simp only [String.intercalate.go, List.foldl_cons]
    exact ih _

/-- Adding entries one by one to no fields joins them with `&`. -/
theorem foldl_appendEntry_empty (es : List String) (h : ∀ e ∈ es, e ≠ "") :
    es.foldl appendEntry "" = String.intercalate "&" es := by
  cases es with
  | nil => rfl
  | cons e es =>
    have he : e ≠ "" := h e (List.mem_cons_self _ _)
    have h1 : appendEntry "" e = e := by
      unfold appendEntry
      simp
    simp only [List.foldl_cons, String.intercalate, h1]
    rw [foldl_appendEntry_of_ne es e he, intercalate_go_eq_foldl]

/-- `querystring.stringify` gives the form-encoded query string of the
parameters wherever that is defined. -/
theorem stringify_of_formEncode (params : JSValue) (q : String)
    (h : formEncode params = some q) : querystring.stringify params = .ok q := by
  cases params with
  | object ps =>
    simp only [formEncode] at h
    cases hes : formEntriesOf (ownProps ps) with
    | none => simp [hes] at h
    | some es =>
      simp only [hes, Option.some.injEq] at h
      subst h
      simp only [querystring.stringify, addProps_of_formEntriesOf _ es "" hes]
      rw [foldl_appendEntry_empty es (formEntriesOf_ne_empty _ es hes)]
  | array xs =>
    simp only [formEncode] at h
    cases hes : formEntriesOf (indexedProps 0 xs) with
    | none => simp [hes] at h
    | some es =>
      simp only [hes, Option.some.injEq] at h
      subst h
      simp only [querystring.stringify, addProps_of_formEntriesOf _ es "" hes]
      rw [foldl_appendEntry_empty es (formEntriesOf_ne_empty _ es hes)]
  | string s =>
    simp only [formEncode, Option.some.injEq] at h
    subst h
    rfl
  | number n =>
    simp only [formEncode, Option.some.injEq] at h
    subst h
    rfl
  | boolean b =>
    simp only [formEncode, Option.some.injEq] at h
    subst h
    rfl
  | undefined =>
    simp only [formEncode, Option.some.injEq] at h
    subst h
    rfl
  | null =>
    simp only [formEncode, Option.some.injEq] at h
    subst h
    rfl

/-- The test `path.slice(0, 1) != '/'` on a string is the test that the path
does not begin with the separator. -/
theorem slice_test_eq (path : JSString) :
    looseEqString (.string ⟨path.units.take 1⟩) "/" = decide (beginsWithSlash path) := by
  obtain ⟨units⟩ := path
  cases units with
  | nil => rfl
  | cons u rest =>
    simp only [looseEqString, beginsWithSlash, List.take_succ_cons, List.take_zero,
      List.head?_cons, Option.some.injEq]
    by_cases hu : u = 47
    · subst hu
      rfl
    · have h1 : (⟨[u]⟩ : JSString) ≠ JSString.ofString "/" := by
        intro h
        apply hu
        have h2 := congrArg JSString.units h
        have h3 : (JSString.ofString "/").units = [47] := rfl
        rw [h3] at h2
        exact List.head_eq_of_cons_eq h2
      simp [h1, hu]

/-- C4, as stated, fails: `encodeURL` throws a `URIError` on parameters with
a string that ends in a surrogate without its pair, and a `TypeError` on a path
that is a number. -/
theorem encodeURL_fails :
    encodeURL (.string "/issues.json") loneSurrogateParams
        = .error (Thrown.URIError "URI malformed")
    ∧ encodeURL (.number (JSNumber.ofNat 7)) (.object [])
        = .error (Thrown.TypeError "path.slice is not a function") :=
  ⟨rfl, rfl⟩

/-- C4 (amended): for every string `path` and all parameters whose keys and
string values are well-formed Unicode, with form-encoded query string `q`,
`encodeURL(path, params)` does not fail and returns `p` when `q` is empty and
`p + '?' + q` otherwise, where `p` is `path` when it begins with `/` and
`'/' + path` when not; and `encodeURL('/' + path, {})` returns its path, which
begins with `/`, unchanged. -/
theorem encodeURL_builds_address (path : JSString) (params : JSValue) (q : String)
    (h : formEncode params = some q) :
    encodeURL (.string path) params = .ok (.string (addressSpec path q))
    ∧ encodeURL (.string (JSString.ofString "/" ++ path)) (.object [])
        = .ok (.string (JSString.ofString "/" ++ path)) := by
  have key : ∀ (p : JSString) (ps : JSValue) (r : String), formEncode ps = some r →
      encodeURL (.string p) ps = .ok (.string (addressSpec p r)) := by
    intro p ps r hr
    unfold encodeURL addressSpec
    simp only [slice01, stringify_of_formEncode ps r hr, bind, Except.bind, slice_test_eq,
      toJSString, pure, Except.pure]
    by_cases hb : beginsWithSlash p <;> by_cases hq : r = "" <;> simp [hb, hq, toJSString]
  refine ⟨key path params q h, ?_⟩
  have hb : beginsWithSlash (JSString.ofString "/" ++ path) := rfl
  rw [key _ (.object []) "" rfl]
  simp [addressSpec, hb]

/-- C4 (amended), at the path `issues.json` and the parameters of a search. -/
theorem encodeURL_builds_address_witness :
    formEncode searchParams = some "limit=10&subject=caf%C3%A9%20au%20lait"
    ∧ (encodeURL (.string "issues.json") searchParams
        = .ok (.string "/issues.json?limit=10&subject=caf%C3%A9%20au%20lait")
      ∧ encodeURL (.string (JSString.ofString "/" ++ "issues.json")) (.object [])
        = .ok (.string (JSString.ofString "/" ++ "issues.json"))) :=
  ⟨rfl, encodeURL_builds_address "issues.json" searchParams
    "limit=10&subject=caf%C3%A9%20au%20lait" rfl⟩

/-! ## Properties of `request` and of the resource methods -/

/-- A request object `http.request` returns holds the options it was given. -/
theorem http_request_ok (opts : RequestOptions) (r : ClientRequest)
    (h : http.request opts = .ok r) :
    r = { opts := opts, headersSet := [], written := [], ended := false } := by
  unfold http.request at h
  simp only [bind, Except.bind, pure, Except.pure, throw, throwThe, MonadExceptOf.throw] at h
  repeat' split at h
  all_goals (cases h; try rfl)

/-- A request object `setHeader` returns has the header added and nothing else
changed. -/
theorem http_setHeader_ok (req r : ClientRequest) (name : String) (value : JSValue)
    (h : http.setHeader req name value = .ok r) :
    r = { req with headersSet := req.headersSet ++ [(name, value)] } := by
  unfold http.setHeader at h
  simp only [bind, Except.bind, pure, Except.pure, throw, throwThe, MonadExceptOf.throw] at h
  repeat' split at h
  all_goals (cases h; try rfl)

/-- The object literal `opts`, when its evaluation does not throw. -/
theorem requestOptions_ok (self : Client) (method : String) (path params : JSValue)
    (o : RequestOptions) (h : requestOptions self method path params = .ok o) :
    getProp self.config "host" = .ok o.host
    ∧ o.method = method
    ∧ (if method = "GET" then encodeURL path params else .ok path) = .ok o.path
    ∧ ∃ key, getProp self.config "apiKey" = .ok key
        ∧ o.headers = [("X-Redmine-API-Key", key)] := by
  unfold requestOptions at h
  cases hh : getProp self.config "host" with
  | error e => simp [hh, bind, Except.bind] at h
  | ok host =>
    cases hk : getProp self.config "apiKey" with
    | error e =>
      by_cases hm : method = "GET"
      · cases hp : encodeURL path params <;>
          simp [hh, hk, hm, hp, bind, Except.bind, pure, Except.pure] at h
      · simp [hh, hk, hm, bind, Except.bind, pure, Except.pure] at h
    | ok key =>
      by_cases hm : method = "GET"
      · cases hp : encodeURL path params with
        | error e => simp [hh, hk, hm, hp, bind, Except.bind, pure, Except.pure] at h
        | ok p =>
          simp only [hh, hk, hm, hp, bind, Except.bind, pure, Except.pure, if_true,
            Except.ok.injEq] at h
          subst h
          exact ⟨rfl, hm.symm, by simp [hm, hp], key, rfl, rfl⟩
      · simp only [hh, hk, hm, bind, Except.bind, pure, Except.pure, if_false,
          Except.ok.injEq] at h
        subst h
        exact ⟨rfl, rfl, by simp [hm], key, rfl, rfl⟩

/-- The options of a request that `request` returns are the object literal
`opts`. -/
theorem request_ok_opts (self : Client) (method : String) (path params : JSValue)
    (req : ClientRequest) (h : request self method path params = .ok req) :
    requestOptions self method path params = .ok req.opts := by
  unfold request at h
  cases ho : requestOptions self method path params with
  | error e => simp [ho, bind, Except.bind] at h
  | ok o =>
    cases hr : http.request o with
    | error e => simp [ho, hr, bind, Except.bind] at h
    | ok r0 =>
      have hr0 := http_request_ok _ _ hr
      simp only [ho, hr, bind, Except.bind, pure, Except.pure] at h
      by_cases hm : method = "GET"
      · simp only [hm, ne_eq, not_true_eq_false, if_false, Except.ok.injEq] at h
        subst h
        subst hr0
        rfl
      · simp only [hm, ne_eq, not_false_eq_true, if_true] at h
        cases hb : JSON.stringify params with
        | none => simp [hb, throw, throwThe, MonadExceptOf.throw] at h
        | some body =>
          simp only [hb] at h
          cases h1 : http.setHeader r0 "Content-Length"
              (.number (JSNumber.ofNat (jsLength body))) with
          | error e => simp [h1] at h
          | ok r1 =>
            simp only [h1] at h
            cases hf : getProp self.config "format" with
            | error e => simp [hf] at h
            | ok format =>
              simp only [hf] at h
              cases h2 : http.setHeader r1 "Content-Type"
                  (.string (JSString.ofString
                    (if looseEqString format "json" then "application/json"
                      else "application/xml"))) with
              | error e => simp [h2] at h
              | ok r2 =>
                simp only [h2, Except.ok.injEq] at h
                subst h
                have e1 := http_setHeader_ok _ _ _ _ h1
                have e2 := http_setHeader_ok _ _ _ _ h2
                subst e2
                subst e1
                subst hr0
                rfl

/-- A client that authenticates with a username and a password has no API key,
and `http.request` refuses the header without a value: `issues` throws on such
a client, as `request` does on a path with a space. -/
theorem issues_without_apiKey_throws :
    Redmine sampleHost passwordConfig = .ok passwordClient
    ∧ issues passwordClient (.object [])
        = .error (Thrown.TypeError "Invalid value \"undefined\" for header \"X-Redmine-API-Key\"")
    ∧ request sampleClient "GET" (.string "/issues with space.json") (.object [])
        = .error (Thrown.TypeError "Request path contains unescaped characters") :=
  ⟨rfl, rfl, rfl⟩

/-- C9: for every client, method, path and params, a request that `request`
sends has `host` equal to `config.host` and `path` equal to
`encodeURL(path, params)` when the method is `GET` and to the path argument
itself otherwise; a `GET` is sent whenever `http.request` accepts these options;
a request `issues(params)` sends targets `encodeURL('/issues.' + format, params)`
and one `create_issue` sends targets `'/issues.' + format`. -/
theorem request_target (self : Client) (method : String) (path params : JSValue) :
    (∀ req, request self method path params = .ok req →
        getProp self.config "host" = .ok req.opts.host
        ∧ (method = "GET" → encodeURL path params = .ok req.opts.path)
        ∧ (method ≠ "GET" → req.opts.path = path))
    ∧ (∀ host p key r0, getProp self.config "host" = .ok host →
        encodeURL path params = .ok p → getProp self.config "apiKey" = .ok key →
        http.request ⟨host, p, "GET", [("X-Redmine-API-Key", key)]⟩ = .ok r0 →
        request self "GET" path params = .ok { r0 with ended := true })
    ∧ (∀ req, issues self params = .ok req →
        ∃ fmt, getProp self.config "format" = .ok fmt
          ∧ getProp self.config "host" = .ok req.opts.host
          ∧ encodeURL (.string (JSString.ofString "/issues." ++ toJSString fmt)) params
              = .ok req.opts.path)
    ∧ (∀ req, create_issue self params = .ok req →
        ∃ fmt, getProp self.config "format" = .ok fmt
          ∧ getProp self.config "host" = .ok req.opts.host
          ∧ req.opts.path = .string (JSString.ofString "/issues." ++ toJSString fmt)) := by
  refine ⟨?_, ?_, ?_, ?_⟩
  · intro req h
    obtain ⟨h1, _, h3, _⟩ := requestOptions_ok _ _ _ _ _ (request_ok_opts _ _ _ _ _ h)
    refine ⟨h1, ?_, ?_⟩
    · intro hm
      rw [if_pos hm] at h3
      exact h3
    · intro hm
      rw [if_neg hm] at h3
      injection h3 with h4
      exact h4.symm
  · intro host p key r0 hh hp hk hr
    unfold request requestOptions
    simp [hh, hp, hk, hr, bind, Except.bind, pure, Except.pure]
  · intro req h
    unfold issues at h
    cases hf : getProp self.config "format" with
    | error e => simp [hf, bind, Except.bind] at h
    | ok fmt =>
      simp only [hf, bind, Except.bind] at h
      obtain ⟨h1, _, h3, _⟩ := requestOptions_ok _ _ _ _ _ (request_ok_opts _ _ _ _ _ h)
      rw [if_pos rfl] at h3
      exact ⟨fmt, rfl, h1, h3⟩
  · intro req h
    unfold create_issue at h
    cases hf : getProp self.config "format" with
    | error e => simp [hf, bind, Except.bind] at h
    | ok fmt =>
      simp only [hf, bind, Except.bind] at h
      obtain ⟨h1, _, h3, _⟩ := requestOptions_ok _ _ _ _ _ (request_ok_opts _ _ _ _ _ h)
      rw [if_neg (by decide)] at h3
      injection h3 with h4
      exact ⟨fmt, rfl, h1, h4.symm⟩

/-- C9, on the client `new Redmine(sampleHost, sampleConfig)`: `issues` with the
parameters of a search sends a request to the host of the config and to the
address `encodeURL` builds. -/
theorem request_target_witness :
    issues sampleClient searchParams = .ok searchRequest
    ∧ ∃ fmt, getProp sampleClient.config "format" = .ok fmt
        ∧ getProp sampleClient.config "host" = .ok searchRequest.opts.host
        ∧ encodeURL (.string (JSString.ofString "/issues." ++ toJSString fmt)) searchParams
            = .ok searchRequest.opts.path :=
  ⟨rfl, (request_target sampleClient "GET" (.string "/issues.json") searchParams).2.2.1
    searchRequest rfl⟩

/-! ## The body length and the identifier check -/

theorem utf16Units_le_utf8Bytes (c : Char) : (utf16Units c).length ≤ (utf8Bytes c).length := by
  unfold utf16Units utf8Bytes
  simp only
  split_ifs
  all_goals first
    | omega
    | simp

theorem utf16Units_eq_utf8Bytes_iff (c : Char) :
    (utf16Units c).length = (utf8Bytes c).length ↔ c.toNat < 128 := by
  unfold utf16Units utf8Bytes
  simp only
  split_ifs
  all_goals first
    | omega
    | (simp; done)
    | (simp; omega)

/-- The `length` of a string never exceeds the number of bytes written for it. -/
theorem jsLength_le_wireBytes (s : String) : jsLength s ≤ (wireBytes s).length := by
  unfold jsLength codeUnits wireBytes
  induction s.toList with
  | nil => simp
  | cons c cs ih =>
    simp only [List.flatMap_cons, List.length_append]
    exact Nat.add_le_add (utf16Units_le_utf8Bytes c) ih

/-- The `length` of a string is the number of bytes written for it exactly when
the string is ASCII. -/
theorem jsLength_eq_wireBytes_iff (s : String) :
    jsLength s = (wireBytes s).length ↔ ∀ c ∈ s.toList, c.toNat < 128 := by
  unfold jsLength codeUnits wireBytes
  induction s.toList with
  | nil => simp
  | cons c cs ih =>
    simp only [List.flatMap_cons, List.length_append, List.mem_cons, forall_eq_or_imp]
    have h1 := utf16Units_le_utf8Bytes c
    have h2 : (cs.flatMap utf16Units).length ≤ (cs.flatMap utf8Bytes).length := by
      clear ih
      induction cs with
      | nil => simp
      | cons d ds ihd =>
        simp only [List.flatMap_cons, List.length_append]
        exact Nat.add_le_add (utf16Units_le_utf8Bytes d) ihd
    rw [← ih, ← utf16Units_eq_utf8Bytes_iff]
    omega

/-- The identifier check of `get_issue_by_id` throws on every value that is not a
number. -/
theorem get_issue_by_id_not_number (self : Client) (id params : JSValue)
    (h : typeof id ≠ "number") :
    get_issue_by_id self id params = .error (.Error "Issue ID must be an integer above 0 !") := by
  unfold get_issue_by_id
  simp [h, bind, Except.bind, throw, throwThe, MonadExceptOf.throw]

/-- The identifier check of `get_issue_by_id` lets every number pass, integer or
not: the request is built from its printed form. -/
theorem get_issue_by_id_number (self : Client) (n : JSNumber) (params fmt : JSValue)
    (h : getProp self.config "format" = .ok fmt) :
    get_issue_by_id self (.number n) params
      = request self "GET"
          (.string (JSString.ofString "/issues/" ++ JSString.ofString n.toStr
            ++ JSString.ofString "." ++ toJSString fmt)) params := by
  unfold get_issue_by_id
  have ht : typeof (.number n) = "number" := rfl
  simp [h, ht, bind, Except.bind, toJSString, pure, Except.pure]

/-- C7, at the failing input `id = 1.5`: the number is not an integer, and
`get_issue_by_id` does not throw but sends the request `GET /issues/1.5.json`. -/
theorem get_issue_by_id_accepts_non_integer :
    JSNumber.isInteger onePointFive = false
    ∧ Redmine sampleHost sampleConfig = .ok sampleClient
    ∧ get_issue_by_id sampleClient (.number onePointFive) (.object [])
      = .ok { opts := { host := .string "redmine.example.org", path := "/issues/1.5.json",
                        method := "GET",
                        headers := [("X-Redmine-API-Key", .string "0123abcd")] },
              headersSet := [], written := [], ended := true } :=
  ⟨rfl, rfl, rfl⟩

/-- C5, at the failing input `params = {subject: 'é'}`: the `Content-Length`
header that `request` sets is 15, the number of UTF-16 code units of the body,
while the body written is 16 bytes long. -/
theorem request_content_length_counts_code_units :
    request sampleClient "POST" "/issues.json" (.object [("subject", .string "é")])
      = .ok { opts := { host := .string "redmine.example.org", path := "/issues.json",
                        method := "POST",
                        headers := [("X-Redmine-API-Key", .string "0123abcd")] },
              headersSet := [("Content-Length", .number (JSNumber.ofNat 15)),
                             ("Content-Type", .string "application/json")],
              written := ["\x7b\"subject\":\"é\"\x7d"], ended := true }
    ∧ (wireBytes "\x7b\"subject\":\"é\"\x7d").length = 16 :=
  ⟨rfl, rfl⟩

/-! ## Properties of the listeners -/

theorem run_nil (s : RequestState) : run s [] = s := rfl

theorem run_cons (s : RequestState) (e : Event) (evs : List Event) :
    run s (e :: evs) = run (step s e) evs := rfl

theorem run_append (s : RequestState) (evs more : List Event) :
    run s (evs ++ more) = run (run s evs) more := by
  unfold run
  exact List.foldl_append _ _ _ _

theorem invokeCallback_null (s : RequestState) (err data : JSValue) (h : s.callback = false) :
    (invokeCallback s err data).callback = false
    ∧ (invokeCallback s err data).calls = s.calls := by
  simp [invokeCallback, h]

theorem invokeCallback_live (s : RequestState) (err data : JSValue) (h : s.callback = true) :
    (invokeCallback s err data).callback = false
    ∧ (invokeCallback s err data).calls = s.calls ++ [(err, data)] := by
  simp [invokeCallback, h]

/-- Once the variable `callback` is `null`, no event changes it or the recorded
invocations. -/
theorem step_callback_null (s : RequestState) (e : Event) (h : s.callback = false) :
    (step s e).callback = false ∧ (step s e).calls = s.calls := by
  cases e with
  | response res =>
    simp only [step, onResponse]
    by_cases hr : s.responded = true
    · simp [hr, h]
    · simp only [hr, if_false, Bool.false_eq_true]
      by_cases hst : res.statusCode ≠ 200 ∧ res.statusCode ≠ 201
      · rw [if_pos hst]
        exact invokeCallback_null { s with responded := true } _ _ h
      · rw [if_neg hst]
        exact ⟨h, rfl⟩
  | data chunk =>
    simp only [step, onData]
    cases s.res <;> simp [h]
  | streamEnd =>
    simp only [step, onEnd]
    cases s.res with
    | none => exact ⟨h, rfl⟩
    | some res =>
      simp only
      by_cases hb : s.body ≠ ""
      · rw [if_pos hb]
        cases JSON.parse s.body with
        | ok data => exact invokeCallback_null _ _ _ h
        | error err => exact ⟨h, rfl⟩
      · rw [if_neg hb]
        exact invokeCallback_null _ _ _ h
  | error err => exact invokeCallback_null _ _ _ h

theorem run_callback_null (s : RequestState) (evs : List Event) (h : s.callback = false) :
    (run s evs).callback = false ∧ (run s evs).calls = s.calls := by
  induction evs generalizing s with
  | nil => exact ⟨h, rfl⟩
  | cons e evs ih =>
    rw [run_cons]
    obtain ⟨h1, h2⟩ := step_callback_null s e h
    obtain ⟨h3, h4⟩ := ih (step s e) h1
    exact ⟨h3, h4.trans h2⟩

theorem foldl_append_string (l : List String) (acc : String) :
    l.foldl (fun r s => r ++ s) acc = acc ++ String.join l := by
  unfold String.join
  induction l generalizing acc with
  | nil => simp
  | cons c cs ih =>
    simp only [List.foldl_cons]
    rw [ih (acc ++ c), ih ("" ++ c)]
    simp [String.append_assoc]

/-- The `data` listener run over the chunks of a body appends their
concatenation, in the order of arrival, to the variable `body`. -/
theorem run_data (s : RequestState) (res : IncomingMessage) (chunks : List String)
    (hres : s.res = some res) :
    run s (chunks.map Event.data) = { s with body := s.body ++ String.join chunks } := by
  induction chunks generalizing s with
  | nil => simp [run_nil, String.join]
  | cons c cs ih =>
    simp only [List.map_cons, run_cons, step, onData, hres]
    rw [ih _ rfl]
    simp only [String.join, List.foldl_cons]
    rw [foldl_append_string cs ("" ++ c)]
    simp [String.append_assoc, String.join]

/-- After the response with a failing status, the `data` and `end` listeners are
not registered: no event changes `body` or calls `JSON.parse`. -/
theorem run_not_listening (s : RequestState) (evs : List Event) (hr : s.responded = true)
    (hres : s.res = none) :
    (run s evs).body = s.body ∧ (run s evs).parsed = s.parsed := by
  induction evs generalizing s with
  | nil => exact ⟨rfl, rfl⟩
  | cons e evs ih =>
    rw [run_cons]
    have hstep : (step s e).responded = true ∧ (step s e).res = none
        ∧ (step s e).body = s.body ∧ (step s e).parsed = s.parsed := by
      cases e with
      | response res => simp [step, onResponse, hr, hres]
      | data chunk => simp [step, onData, hr, hres]
      | streamEnd => simp [step, onEnd, hr, hres]
      | error err =>
        simp only [step, onError, invokeCallback]
        split_ifs <;> simp [hr, hres]
    obtain ⟨h1, h2, h3, h4⟩ := hstep
    obtain ⟨h5, h6⟩ := ih (step s e) h1 h2
    exact ⟨h5.trans h3, h6.trans h4⟩

/-- C1: for every response whose status code is neither 200 nor 201, the
`response` listener invokes the callback with the error string
`'Server returns : ' + statusMessage + ' (' + statusCode + ')'` and `null` data;
whatever events follow, that stays the only invocation, no chunk is added to
`body` and `JSON.parse` is not called. -/
theorem failure_status_reports_error (res : IncomingMessage) (evs : List Event)
    (h200 : res.statusCode ≠ 200) (h201 : res.statusCode ≠ 201) :
    (step RequestState.init (.response res)).calls
      = [(.string ("Server returns : " ++ res.statusMessage ++ " ("
          ++ (JSNumber.ofNat res.statusCode).toStr ++ ")"), .null)]
    ∧ (run RequestState.init (.response res :: evs)).calls
      = [(.string ("Server returns : " ++ res.statusMessage ++ " ("
          ++ (JSNumber.ofNat res.statusCode).toStr ++ ")"), .null)]
    ∧ (run RequestState.init (.response res :: evs)).body = ""
    ∧ (run RequestState.init (.response res :: evs)).parsed = [] := by
  have hstep : step RequestState.init (.response res)
      = { RequestState.init with
          responded := true, callback := false,
          calls := [(.string ("Server returns : " ++ res.statusMessage ++ " ("
            ++ (JSNumber.ofNat res.statusCode).toStr ++ ")"), .null)] } := by
    simp [step, onResponse, RequestState.init, h200, h201, invokeCallback, statusError]
  refine ⟨by rw [hstep], ?_, ?_, ?_⟩
  · rw [run_cons, (run_callback_null _ evs (by rw [hstep])).2, hstep]
  · rw [run_cons, (run_not_listening _ evs (by rw [hstep]) (by rw [hstep]; rfl)).1, hstep]
    rfl
  · rw [run_cons, (run_not_listening _ evs (by rw [hstep]) (by rw [hstep]; rfl)).2, hstep]
    rfl

set_option maxRecDepth 8192

/-- C1, on the status 404 with a body that follows. -/
theorem failure_status_reports_error_witness :
    (404 ≠ 200 ∧ 404 ≠ 201)
    ∧ (run RequestState.init
        [.response ⟨404, "Not Found"⟩, .data "\x7b\"errors\":[]\x7d", .streamEnd]).calls
      = [(.string "Server returns : Not Found (404)", .null)]
    ∧ (run RequestState.init
        [.response ⟨404, "Not Found"⟩, .data "\x7b\"errors\":[]\x7d", .streamEnd]).parsed = [] :=
  ⟨⟨by decide, by decide⟩,
    (failure_status_reports_error ⟨404, "Not Found"⟩
      [.data "\x7b\"errors\":[]\x7d", .streamEnd] (by decide) (by decide)).2.1,
    (failure_status_reports_error ⟨404, "Not Found"⟩
      [.data "\x7b\"errors\":[]\x7d", .streamEnd] (by decide) (by decide)).2.2.2⟩

/-- C2, as stated, fails: on a 200 response whose body is the one chunk
`<html>`, the end of the stream does not invoke the callback; `JSON.parse`
throws, and the `SyntaxError` leaves the `end` listener. -/
theorem success_status_malformed_body :
    (run RequestState.init [.response ⟨200, "OK"⟩, .data "<html>", .streamEnd]).calls = []
    ∧ (run RequestState.init [.response ⟨200, "OK"⟩, .data "<html>", .streamEnd]).thrown
      = [Thrown.SyntaxError "Unexpected token in JSON"]
    ∧ JSON.parse "<html>" = .error (Thrown.SyntaxError "Unexpected token in JSON") :=
  ⟨rfl, rfl, rfl⟩

/-- C2 (amended): for every response with status 200 or 201 and every sequence
of body chunks, at the end of the stream the callback is invoked once, with a
null error and with the data `{statusCode, statusMessage}` when the
concatenation of the chunks is empty, and with the value `JSON.parse` returns
for the concatenation when that is not empty and is JSON. -/
theorem success_status_delivers_body (res : IncomingMessage) (chunks : List String)
    (hs : res.statusCode = 200 ∨ res.statusCode = 201) :
    (String.join chunks = "" →
      (run RequestState.init (.response res :: (chunks.map Event.data ++ [.streamEnd]))).calls
        = [(.null, .object [("statusCode", .number (JSNumber.ofNat res.statusCode)),
            ("statusMessage", .string res.statusMessage)])])
    ∧ (∀ data, String.join chunks ≠ "" → JSON.parse (String.join chunks) = .ok data →
      (run RequestState.init (.response res :: (chunks.map Event.data ++ [.streamEnd]))).calls
        = [(.null, data)]) := by
  have hst : ¬ (res.statusCode ≠ 200 ∧ res.statusCode ≠ 201) := by
    rcases hs with h | h <;> simp [h]
  have hstep : step RequestState.init (.response res)
      = { RequestState.init with responded := true, res := some res } := by
    simp [step, onResponse, RequestState.init, hst]
  have hrun : run RequestState.init (.response res :: (chunks.map Event.data ++ [.streamEnd]))
      = onEnd { RequestState.init with
          responded := true, res := some res, body := String.join chunks } := by
    rw [run_cons, run_append, hstep, run_data _ res chunks rfl]
    simp [run, step, RequestState.init]
  rw [hrun]
  constructor
  · intro hb
    simp [onEnd, hb, invokeCallback, RequestState.init, statusData]
  · intro data hb hp
    simp [onEnd, hb, hp, invokeCallback, RequestState.init]

/-- C2 (amended), on the body of the specification's example, arriving in two
chunks. -/
theorem success_status_delivers_body_witness :
    ((200 : Nat) = 200 ∨ (200 : Nat) = 201)
    ∧ (run RequestState.init
        [.response ⟨200, "OK"⟩, .data "\x7b\"issue\":", .data "\x7b\"id\":1\x7d\x7d",
          .streamEnd]).calls
      = [(.null, .object [("issue", .object [("id", .number (JSNumber.ofNat 1))])])] :=
  ⟨Or.inl rfl,
    (success_status_delivers_body ⟨200, "OK"⟩ ["\x7b\"issue\":", "\x7b\"id\":1\x7d\x7d"]
      (Or.inl rfl)).2 _ (by decide) (by rfl)⟩

/-- The invariant of the listeners: either the variable `callback` holds the
caller's function and nothing has been invoked, or it is `null` and there has
been one invocation. -/
theorem invokeCallback_invariant (s : RequestState) (err data : JSValue)
    (h : (s.callback = true ∧ s.calls = []) ∨ (s.callback = false ∧ s.calls.length = 1)) :
    (invokeCallback s err data).callback = false
    ∧ (invokeCallback s err data).calls.length = 1 := by
  rcases h with ⟨hc, h0⟩ | ⟨hc, h1⟩
  · simp [invokeCallback, hc, h0]
  · simp [invokeCallback, hc, h1]

theorem step_invariant (s : RequestState) (e : Event)
    (h : (s.callback = true ∧ s.calls = []) ∨ (s.callback = false ∧ s.calls.length = 1)) :
    ((step s e).callback = true ∧ (step s e).calls = [])
    ∨ ((step s e).callback = false ∧ (step s e).calls.length = 1) := by
  cases e with
  | response res =>
    simp only [step, onResponse]
    by_cases hr : s.responded = true
    · simpa [hr] using h
    · simp only [hr, if_false, Bool.false_eq_true]
      by_cases hst : res.statusCode ≠ 200 ∧ res.statusCode ≠ 201
      · rw [if_pos hst]
        exact Or.inr (invokeCallback_invariant { s with responded := true } _ _ h)
      · rw [if_neg hst]
        exact h
  | data chunk =>
    simp only [step, onData]
    cases s.res with
    | none => exact h
    | some res => exact h
  | streamEnd =>
    simp only [step, onEnd]
    cases hres : s.res with
    | none => exact h
    | some res =>
      simp only
      by_cases hb : s.body ≠ ""
      · rw [if_pos hb]
        cases JSON.parse s.body with
        | ok data =>
          exact Or.inr (invokeCallback_invariant
            { s with res := some res, parsed := s.parsed ++ [s.body] } _ _ h)
        | error err => exact h
      · rw [if_neg hb]
        exact Or.inr (invokeCallback_invariant s _ _ h)
  | error err => exact Or.inr (invokeCallback_invariant s _ _ h)

theorem run_invariant (s : RequestState) (evs : List Event)
    (h : (s.callback = true ∧ s.calls = []) ∨ (s.callback = false ∧ s.calls.length = 1)) :
    ((run s evs).callback = true ∧ (run s evs).calls = [])
    ∨ ((run s evs).callback = false ∧ (run s evs).calls.length = 1) := by
  induction evs generalizing s with
  | nil => exact h
  | cons e evs ih => exact ih (step s e) (step_invariant s e h)

theorem init_invariant (evs : List Event) :
    ((run RequestState.init evs).callback = true ∧ (run RequestState.init evs).calls = [])
    ∨ ((run RequestState.init evs).callback = false
      ∧ (run RequestState.init evs).calls.length = 1) :=
  run_invariant RequestState.init evs (Or.inl ⟨rfl, rfl⟩)

theorem invokeCallback_sets_null (s : RequestState) (err data : JSValue) :
    (invokeCallback s err data).callback = false := by
  unfold invokeCallback
  split_ifs with h
  · rfl
  · simpa using h

/-- A transport error leaves the variable `callback` `null`. -/
theorem run_transportFailed (s : RequestState) (evs : List Event)
    (h : transportFailed evs = true) : (run s evs).callback = false := by
  induction evs generalizing s with
  | nil => simp [transportFailed] at h
  | cons e evs ih =>
    rw [run_cons]
    cases e with
    | error err =>
      exact (run_callback_null _ evs (invokeCallback_sets_null s err .null)).1
    | response res => exact ih _ (by simpa [transportFailed, Event.isError] using h)
    | data chunk => exact ih _ (by simpa [transportFailed, Event.isError] using h)
    | streamEnd => exact ih _ (by simpa [transportFailed, Event.isError] using h)

/-- An event other than a response leaves the `response` listener registered. -/
theorem step_responded (s : RequestState) (e : Event) (hr : s.responded = false)
    (hres : s.res = none) (he : ∀ res, e ≠ .response res) :
    (step s e).responded = false ∧ (step s e).res = none := by
  cases e with
  | response res => exact absurd rfl (he res)
  | data chunk => simp [step, onData, hr, hres]
  | streamEnd => simp [step, onEnd, hr, hres]
  | error err =>
    simp only [step, onError, invokeCallback]
    split_ifs <;> simp [hr, hres]

/-- A response with a status other than 200 and 201 leaves the variable
`callback` `null`. -/
theorem run_httpFailed (s : RequestState) (evs : List Event) (hr : s.responded = false)
    (hres : s.res = none) (h : httpFailed evs = true) : (run s evs).callback = false := by
  induction evs generalizing s with
  | nil => simp [httpFailed, firstResponse] at h
  | cons e evs ih =>
    rw [run_cons]
    cases e with
    | response res =>
      simp only [httpFailed, firstResponse, okStatus, Bool.not_eq_true', decide_eq_false_iff_not,
        not_or] at h
      have hst : res.statusCode ≠ 200 ∧ res.statusCode ≠ 201 := h
      apply (run_callback_null _ evs _).1
      simp only [step, onResponse, hr, Bool.false_eq_true, if_false, if_pos hst]
      exact invokeCallback_sets_null _ _ _
    | data chunk =>
      obtain ⟨h1, h2⟩ := step_responded s (.data chunk) hr hres (fun _ hh => by cases hh)
      exact ih _ h1 h2 (by simpa [httpFailed, firstResponse] using h)
    | streamEnd =>
      obtain ⟨h1, h2⟩ := step_responded s .streamEnd hr hres (fun _ hh => by cases hh)
      exact ih _ h1 h2 (by simpa [httpFailed, firstResponse] using h)
    | error err =>
      obtain ⟨h1, h2⟩ := step_responded s (.error err) hr hres (fun _ hh => by cases hh)
      exact ih _ h1 h2 (by simpa [httpFailed, firstResponse] using h)

theorem string_join_cons (c : String) (cs : List String) :
    String.join (c :: cs) = c ++ String.join cs := by
  simp only [String.join, List.foldl_cons]
  rw [foldl_append_string cs ("" ++ c)]
  simp [String.join]

/-- Once the `data` and `end` listeners are registered, the end of the stream
leaves the variable `callback` `null` when the body accumulated by then is empty
or is JSON. -/
theorem run_listening (s : RequestState) (res : IncomingMessage) (evs : List Event)
    (hres : s.res = some res) (hr : s.responded = true)
    (hend : evs.any Event.isEnd = true)
    (hbody : s.body ++ String.join (chunksBeforeEnd evs) = ""
      ∨ ∃ data, JSON.parse (s.body ++ String.join (chunksBeforeEnd evs)) = .ok data) :
    (run s evs).callback = false := by
  induction evs generalizing s with
  | nil => simp at hend
  | cons e evs ih =>
    rw [run_cons]
    cases e with
    | error err =>
      exact (run_callback_null _ evs (invokeCallback_sets_null s err .null)).1
    | response r =>
      have hs : step s (.response r) = s := by simp [step, onResponse, hr]
      rw [hs]
      exact ih s hres hr (by simpa [Event.isEnd] using hend)
        (by simpa [chunksBeforeEnd] using hbody)
    | data chunk =>
      have hs : step s (.data chunk) = { s with body := s.body ++ chunk } := by
        simp [step, onData, hres]
      rw [hs]
      refine ih _ hres hr (by simpa [Event.isEnd] using hend) ?_
      simp only [chunksBeforeEnd, string_join_cons] at hbody
      simpa [String.append_assoc] using hbody
    | streamEnd =>
      apply (run_callback_null _ evs _).1
      simp only [chunksBeforeEnd, String.join, List.foldl_nil, String.append_empty] at hbody
      simp only [step, onEnd, hres]
      by_cases hb : s.body = ""
      · have hb2 : ¬ s.body ≠ "" := fun hne => hne hb
        rw [if_neg hb2]
        exact invokeCallback_sets_null _ _ _
      · rw [if_pos hb]
        rcases hbody with h0 | ⟨data, hd⟩
        · exact absurd h0 hb
        · rw [hd]
          exact invokeCallback_sets_null _ _ _

/-- A response with status 200 or 201 whose stream ends leaves the variable
`callback` `null` when the body of the response is empty or is JSON. -/
theorem run_succeeded (s : RequestState) (evs : List Event) (hr : s.responded = false)
    (hres : s.res = none) (h : succeeded evs = true)
    (hbody : responseBody evs = "" ∨ ∃ data, JSON.parse (responseBody evs) = .ok data) :
    (run s evs).callback = false := by
  induction evs generalizing s with
  | nil => simp [succeeded, firstResponse] at h
  | cons e evs ih =>
    rw [run_cons]
    cases e with
    | response res =>
      simp only [succeeded, firstResponse, afterResponse, okStatus, Bool.and_eq_true,
        decide_eq_true_eq] at h
      have hst : ¬ (res.statusCode ≠ 200 ∧ res.statusCode ≠ 201) := by
        rcases h.1 with h1 | h1 <;> simp [h1]
      have hs : step s (.response res)
          = { s with responded := true, res := some res, body := "" } := by
        simp [step, onResponse, hr, hst]
      rw [hs]
      refine run_listening _ res evs rfl rfl h.2 ?_
      simpa [responseBody, afterResponse] using hbody
    | data chunk =>
      have hs : step s (.data chunk) = s := by simp [step, onData, hres]
      rw [hs]
      exact ih s hr hres (by simpa [succeeded, firstResponse, afterResponse] using h)
        (by simpa [responseBody, afterResponse] using hbody)
    | streamEnd =>
      have hs : step s .streamEnd = s := by simp [step, onEnd, hres]
      rw [hs]
      exact ih s hr hres (by simpa [succeeded, firstResponse, afterResponse] using h)
        (by simpa [responseBody, afterResponse] using hbody)
    | error err =>
      exact (run_callback_null _ evs (invokeCallback_sets_null s err .null)).1

/-- Once the `data` and `end` listeners are registered, chunks of data and
further responses invoke nothing. -/
theorem run_listening_quiet (s : RequestState) (res : IncomingMessage) (evs : List Event)
    (hres : s.res = some res) (hr : s.responded = true)
    (herr : evs.any Event.isError = false) (hend : evs.any Event.isEnd = false) :
    (run s evs).calls = s.calls := by
  induction evs generalizing s with
  | nil => rfl
  | cons e evs ih =>
    rw [run_cons]
    cases e with
    | error err => simp [Event.isError] at herr
    | streamEnd => simp [Event.isEnd] at hend
    | response r =>
      have hs : step s (.response r) = s := by simp [step, onResponse, hr]
      rw [hs]
      exact ih s hres hr (by simpa [Event.isError] using herr)
        (by simpa [Event.isEnd] using hend)
    | data chunk =>
      have hs : step s (.data chunk) = { s with body := s.body ++ chunk } := by
        simp [step, onData, hres]
      rw [hs]
      exact ih _ hres hr (by simpa [Event.isError] using herr)
        (by simpa [Event.isEnd] using hend)

/-- A sequence of events that reaches no terminal outcome invokes nothing. -/
theorem run_no_outcome (s : RequestState) (evs : List Event) (hr : s.responded = false)
    (hres : s.res = none) (h : reachesTerminal evs = false) :
    (run s evs).calls = s.calls := by
  induction evs generalizing s with
  | nil => rfl
  | cons e evs ih =>
    rw [run_cons]
    simp only [reachesTerminal, Bool.or_eq_false_iff] at h
    obtain ⟨⟨htf, hhf⟩, hsu⟩ := h
    cases e with
    | error err => simp [transportFailed, Event.isError] at htf
    | response res =>
      simp only [httpFailed, firstResponse, Bool.not_eq_false'] at hhf
      simp only [succeeded, firstResponse, afterResponse, hhf, Bool.true_and] at hsu
      have hst : ¬ (res.statusCode ≠ 200 ∧ res.statusCode ≠ 201) := by
        simp only [okStatus, decide_eq_true_eq] at hhf
        rcases hhf with h1 | h1 <;> simp [h1]
      have hs : step s (.response res)
          = { s with responded := true, res := some res, body := "" } := by
        simp [step, onResponse, hr, hst]
      rw [hs]
      exact run_listening_quiet _ res evs rfl rfl
        (by simpa [transportFailed, Event.isError] using htf) hsu
    | data chunk =>
      have hs : step s (.data chunk) = s := by simp [step, onData, hres]
      rw [hs]
      refine ih s hr hres ?_
      simp only [reachesTerminal, Bool.or_eq_false_iff]
      exact ⟨⟨by simpa [transportFailed, Event.isError] using htf,
        by simpa [httpFailed, firstResponse] using hhf⟩,
        by simpa [succeeded, firstResponse, afterResponse] using hsu⟩
    | streamEnd =>
      have hs : step s .streamEnd = s := by simp [step, onEnd, hres]
      rw [hs]
      refine ih s hr hres ?_
      simp only [reachesTerminal, Bool.or_eq_false_iff]
      exact ⟨⟨by simpa [transportFailed, Event.isError] using htf,
        by simpa [httpFailed, firstResponse] using hhf⟩,
        by simpa [succeeded, firstResponse, afterResponse] using hsu⟩

/-- C3, as stated, fails: the response has status 201 and its stream ends, the
terminal outcome success, but its body `created` is not JSON, and the callback
is not invoked. -/
theorem undecodable_success_never_calls :
    succeeded [.response ⟨201, "Created"⟩, .data "created", .streamEnd] = true
    ∧ reachesTerminal [.response ⟨201, "Created"⟩, .data "created", .streamEnd] = true
    ∧ (run RequestState.init
        [.response ⟨201, "Created"⟩, .data "created", .streamEnd]).calls.length = 0 :=
  ⟨rfl, rfl, rfl⟩

/-- C3 (amended): for every sequence of transport events delivered to the
listeners of a request, the callback is invoked at most once; it is invoked
exactly once when the sequence reaches a transport failure, an HTTP-level
failure, or a success whose body is empty or is JSON, and not at all when the
sequence reaches no terminal outcome; and after its invocation no further event
invokes it again. -/
theorem callback_invocations_by_outcome (evs : List Event) :
    (run RequestState.init evs).calls.length ≤ 1
    ∧ (transportFailed evs = true ∨ httpFailed evs = true →
        (run RequestState.init evs).calls.length = 1)
    ∧ (succeeded evs = true →
        (responseBody evs = "" ∨ ∃ data, JSON.parse (responseBody evs) = .ok data) →
        (run RequestState.init evs).calls.length = 1)
    ∧ (reachesTerminal evs = false → (run RequestState.init evs).calls.length = 0)
    ∧ (∀ more, (run RequestState.init evs).calls.length = 1 →
        (run RequestState.init (evs ++ more)).calls = (run RequestState.init evs).calls) := by
  have hinv := init_invariant evs
  have once : (run RequestState.init evs).callback = false →
      (run RequestState.init evs).calls.length = 1 := by
    intro hc
    rcases hinv with ⟨h1, _⟩ | ⟨_, h2⟩
    · rw [hc] at h1
      cases h1
    · exact h2
  refine ⟨?_, ?_, ?_, ?_, ?_⟩
  · rcases hinv with ⟨_, h0⟩ | ⟨_, h1⟩
    · simp [h0]
    · omega
  · rintro (h | h)
    · exact once (run_transportFailed _ evs h)
    · exact once (run_httpFailed _ evs rfl rfl h)
  · intro h hbody
    exact once (run_succeeded _ evs rfl rfl h hbody)
  · intro h
    rw [run_no_outcome _ evs rfl rfl h]
    rfl
  · intro more h1
    have hc : (run RequestState.init evs).callback = false := by
      rcases hinv with ⟨_, h0⟩ | ⟨hc, _⟩
      · rw [h0] at h1
        cases h1
      · exact hc
    rw [run_append]
    exact (run_callback_null _ more hc).2

/-- C3 (amended), on a response that ends in success with a JSON body and is
followed by a transport error. -/
theorem callback_invocations_by_outcome_witness :
    succeeded [.response ⟨201, "Created"⟩, .data "\x7b\"issue\":\x7b\"id\":7\x7d\x7d",
        .streamEnd, .error (.string "ECONNRESET")] = true
    ∧ (∃ data, JSON.parse (responseBody [.response ⟨201, "Created"⟩,
        .data "\x7b\"issue\":\x7b\"id\":7\x7d\x7d", .streamEnd,
        .error (.string "ECONNRESET")]) = .ok data)
    ∧ (run RequestState.init
        [.response ⟨201, "Created"⟩, .data "\x7b\"issue\":\x7b\"id\":7\x7d\x7d", .streamEnd,
          .error (.string "ECONNRESET")]).calls.length = 1 :=
  ⟨rfl, ⟨_, rfl⟩, (callback_invocations_by_outcome
    [.response ⟨201, "Created"⟩, .data "\x7b\"issue\":\x7b\"id\":7\x7d\x7d", .streamEnd,
      .error (.string "ECONNRESET")]).2.2.1 rfl (Or.inr ⟨_, rfl⟩)⟩

end NodeRedmine
